import Mathlib

/-!
The Game of Life (raylib): the generation engine and the frame loop.

A shallow embedding of `C/game_of_life_raylib.c`.

* C `int` values are modelled in `Int`.  Every label the program computes is
  an index of the cell array shifted by at most `num_columns + 1`, and every
  sum adds eight cell states, so no operation leaves the range of a 32-bit
  `int` on an array that fits in memory.
* The cell array is a `List cell`; the in-place updates of the C code become
  explicit state passing.  Reading or writing outside the list is undefined
  behaviour in C and is `none` here.
* A function that mutates the array returns the array it leaves behind, also
  on the early `return 1` paths.
-/

namespace GameOfLife

/-- The raylib rectangle (position and size).  raylib stores four floats; the
program only ever stores small integer expressions in them. -/
structure Rectangle where
  x : Int
  y : Int
  width : Int
  height : Int
deriving DecidableEq, Repr

/-- The raylib point, as returned by `GetMousePosition`. -/
structure Vector2 where
  x : Rat
  y : Rat
deriving DecidableEq, Repr

/-- The `cell` struct. -/
structure cell where
  label : Int
  rect_dim : Rectangle
  state : Int
  new_state : Int
deriving DecidableEq, Repr

/-- The `neighbor_info` struct.  On the early return of `get_neighbor_info`
only `out_of_bounds_access` is assigned; the two other fields are then
indeterminate in C, never read by the caller, and held here as `[]` and `0`. -/
structure neighbor_info where
  neighbor_cells : List cell
  sum_neighbor_states : Int
  out_of_bounds_access : Bool
deriving DecidableEq, Repr

/-- Each cell has 8 neighbors. -/
def NUM_NEIGHBORS : Nat := 8

/-- The array read `all_cells[i]` for a C `int` index. -/
def cell_at (all_cells : List cell) (i : Int) : Option cell :=
  if i < 0 then none else all_cells[i.toNat]?

/-- The initialiser of the local array `neighbor_labels` in
`get_neighbor_info`, in the order of the source. -/
def neighbor_labels (input_cell_label num_columns : Int) : List Int :=
  [ input_cell_label - 1,
    input_cell_label + 1,
    input_cell_label + num_columns,
    input_cell_label + num_columns - 1,
    input_cell_label + num_columns + 1,
    input_cell_label - num_columns,
    input_cell_label - num_columns - 1,
    input_cell_label - num_columns + 1 ]

/-- The copy loop of `get_neighbor_info`:
`neighbor_cells[i] = all_cells[neighbor_labels[i]]`, over the labels that are
still to be copied. -/
def copy_cells (all_cells : List cell) : List Int → Option (List cell)
  | [] => some []
  | l :: rest =>
    match cell_at all_cells l with
    | none => none
    | some c =>
      match copy_cells all_cells rest with
      | none => none
      | some cs => some (c :: cs)

/-- The function `get_neighbor_info`: the bounds check over the eight labels
with its early return, the copy of the eight neighbour cells, and the sum of
their states.  (`num_rows` is a parameter of the C function that it never
uses.) -/
def get_neighbor_info (input_cell : cell) (all_cells : List cell)
    (_num_rows num_columns num_cells : Int) : Option neighbor_info :=
  let labels := neighbor_labels input_cell.label num_columns
  if labels.any (fun l => decide (l < 0) || decide (l ≥ num_cells)) then
    some { neighbor_cells := [], sum_neighbor_states := 0, out_of_bounds_access := true }
  else
    match copy_cells all_cells labels with
    | none => none
    | some neighbor_cells =>
      some { neighbor_cells := neighbor_cells,
             sum_neighbor_states := (neighbor_cells.map cell.state).foldl (· + ·) 0,
             out_of_bounds_access := false }

/-- The assignment `all_cells[i].new_state = v`. -/
def set_new_state (all_cells : List cell) (i : Int) (v : Int) : Option (List cell) :=
  match cell_at all_cells i with
  | none => none
  | some c => some (all_cells.set i.toNat { c with new_state := v })

/-- The inner loop of `update_cells` (over `j`), run over the copied
first-order neighbours that are still to be visited.  The flag is `true` when
the loop left the function through `return 1`. -/
def update_neighbors (num_rows num_columns num_cells : Int) :
    List cell → List cell → Option (Bool × List cell)
  | [], all_cells => some (false, all_cells)
  | neighbor :: rest, all_cells =>
    match cell_at all_cells neighbor.label with
    | none => none
    | some c =>
      match get_neighbor_info c all_cells num_rows num_columns num_cells with
      | none => none
      | some nneighbors =>
        if nneighbors.out_of_bounds_access then some (true, all_cells)
        else if nneighbors.sum_neighbor_states = 3 then
          match set_new_state all_cells neighbor.label 1 with
          | none => none
          | some all_cells1 => update_neighbors num_rows num_columns num_cells rest all_cells1
        else update_neighbors num_rows num_columns num_cells rest all_cells

/-- The first loop of `update_cells` (over `i`), run over the indices that are
still to be visited. -/
def update_loop (num_rows num_columns num_cells : Int) :
    List Nat → List cell → Option (Bool × List cell)
  | [], all_cells => some (false, all_cells)
  | i :: rest, all_cells =>
    match all_cells[i]? with
    | none => none
    | some ci =>
      if ci.state = 1 then
        match get_neighbor_info ci all_cells num_rows num_columns num_cells with
        | none => none
        | some neighbors =>
          if neighbors.out_of_bounds_access then some (true, all_cells)
          else
            let all_cells1 :=
              if neighbors.sum_neighbor_states < 2 ∨ neighbors.sum_neighbor_states > 3
              then all_cells.set i { ci with new_state := 0 }
              else all_cells
            match update_neighbors num_rows num_columns num_cells
                neighbors.neighbor_cells all_cells1 with
            | none => none
            | some (true, all_cells2) => some (true, all_cells2)
            | some (false, all_cells2) =>
              update_loop num_rows num_columns num_cells rest all_cells2
      else update_loop num_rows num_columns num_cells rest all_cells

/-- A loop `for (int i = 0; i < num_cells; i++) all_cells[i] = f(all_cells[i])`,
run over the indices that are still to be visited. -/
def for_cells (f : cell → cell) : List Nat → List cell → Option (List cell)
  | [], all_cells => some all_cells
  | i :: rest, all_cells =>
    match all_cells[i]? with
    | none => none
    | some c => for_cells f rest (all_cells.set i (f c))

/-- The body of the second loop of `update_cells`:
`all_cells[i].state = all_cells[i].new_state`. -/
def refresh (c : cell) : cell := { c with state := c.new_state }

/-- The function `update_cells`.  The result is the returned flag (`true` for
`return 1`, the out-of-bounds error) and the array as the call leaves it. -/
def update_cells (all_cells : List cell) (num_cells num_rows num_columns : Int) :
    Option (Bool × List cell) :=
  match update_loop num_rows num_columns num_cells
      (List.range num_cells.toNat) all_cells with
  | none => none
  | some (true, all_cells1) => some (true, all_cells1)
  | some (false, all_cells1) =>
    match for_cells refresh (List.range num_cells.toNat) all_cells1 with
    | none => none
    | some all_cells2 => some (false, all_cells2)

/-- The C operator `!` on an `int`. -/
def lnot (v : Int) : Int := if v = 0 then 1 else 0

/-- The editor's toggle in `main`:
`cells[i].state = !cells[i].state; cells[i].new_state = !cells[i].new_state`. -/
def toggle_cell (c : cell) : cell :=
  { c with state := lnot c.state, new_state := lnot c.new_state }

/-- The body of the reset loop in `main`:
`cells[i].state = 0; cells[i].new_state = 0`. -/
def reset_cell (c : cell) : cell := { c with state := 0, new_state := 0 }

/-- What one frame reads from raylib: the edge-triggered key and button
queries, the pointer position and the measured frame rate. -/
structure Input where
  KEY_SPACE : Bool
  KEY_R : Bool
  KEY_ENTER : Bool
  KEY_LEFT : Bool
  KEY_RIGHT : Bool
  MOUSE_BUTTON_LEFT : Bool
  mouse_position : Vector2
  fps : Int
deriving DecidableEq, Repr

/-- The variables of `main` that live across frames, and the frame rate last
passed to `SetTargetFPS`. -/
structure Game where
  pause : Bool
  start : Bool
  reset : Bool
  out_of_bounds_access : Bool
  frames_counter : Int
  target_fps : Int
  mousePoint : Vector2
  cells : List cell
deriving DecidableEq, Repr

/-- The state of `main` when it enters the animation loop, for a cell array
built before the loop. -/
def initial_game (cells : List cell) : Game :=
  { pause := false, start := false, reset := false, out_of_bounds_access := false,
    frames_counter := 0, target_fps := 40, mousePoint := ⟨0, 0⟩, cells := cells }

/-- The constant `screenWidth` of `main`. -/
def screenWidth : Int := 1000

/-- The constant `screenHeight` of `main`. -/
def screenHeight : Int := 600

/-- The constant `cell_length` of `main`. -/
def cell_length : Int := 20

/-- Distance between adjacent cells. -/
def dist_bw_cells : Int := cell_length / 2

/-- Horizontal space from the edge of the window. -/
def horizontal_padding : Int := 20

/-- Vertical space from the edge of the window. -/
def vertical_padding : Int := 20

/-- The number of columns `main` computes. -/
def num_columns : Int := (2 * (screenWidth - 2 * horizontal_padding) + cell_length) / (3 * cell_length)

/-- The number of rows `main` computes. -/
def num_rows : Int := (2 * (screenHeight - 2 * vertical_padding) + cell_length) / (3 * cell_length)

/-- The number of cells `main` computes. -/
def num_cells : Int := num_columns * num_rows

/-- The cell `main` builds for the index `i`, with its rectangle, dead. -/
def main_cell (i : Int) : cell :=
  { label := i
    rect_dim :=
      { x := horizontal_padding + cell_length * (i % num_columns) + dist_bw_cells * (i % num_columns)
        y := vertical_padding + cell_length * (i / num_columns) + dist_bw_cells * (i / num_columns)
        width := cell_length
        height := cell_length }
    state := 0
    new_state := 0 }

/-- The cell array `main` builds before the animation loop. -/
def main_cells : List cell :=
  (List.range num_cells.toNat).map fun (i : Nat) => main_cell (i : Int)

/-- The key handling at the top of a frame. -/
def frame_keys (inp : Input) (g : Game) : Game :=
  { g with
    pause := if inp.KEY_SPACE then !g.pause else g.pause
    reset := if inp.KEY_R then true else g.reset
    start := if inp.KEY_ENTER then true else g.start
    target_fps :=
      if inp.KEY_LEFT then inp.fps - 5
      else if inp.KEY_RIGHT then inp.fps + 5
      else g.target_fps }

/-- The body of the editor loop of a frame: the cell is toggled when the
pointer is in its rectangle and the left button was pressed. -/
def edit_cell (CheckCollisionPointRec : Vector2 → Rectangle → Bool)
    (mousePoint : Vector2) (pressed : Bool) (c : cell) : cell :=
  if CheckCollisionPointRec mousePoint c.rect_dim && pressed then toggle_cell c else c

/-- The `if (!pause) ... else frames_counter++` block of a frame, after the
keys were handled. -/
def frame_step (CheckCollisionPointRec : Vector2 → Rectangle → Bool)
    (num_rows num_columns : Int) (inp : Input) (g : Game) : Option Game :=
  let num_cells := num_columns * num_rows
  if !g.pause then
    if !g.start then
      match for_cells (edit_cell CheckCollisionPointRec inp.mouse_position inp.MOUSE_BUTTON_LEFT)
          (List.range num_cells.toNat) g.cells with
      | none => none
      | some cells1 => some { g with mousePoint := inp.mouse_position, cells := cells1 }
    else
      match update_cells g.cells num_cells num_rows num_columns with
      | none => none
      | some (out_of_bounds_access, cells1) =>
        some { g with
          out_of_bounds_access := out_of_bounds_access
          cells := cells1
          reset := if out_of_bounds_access then true else g.reset }
  else some { g with frames_counter := g.frames_counter + 1 }

/-- The `if (reset)` block in the drawing part of a frame. -/
def frame_reset (num_rows num_columns : Int) (g : Game) : Option Game :=
  let num_cells := num_columns * num_rows
  if g.reset then
    match for_cells reset_cell (List.range num_cells.toNat) g.cells with
    | none => none
    | some cells1 => some { g with cells := cells1, reset := false, start := false }
  else some g

/-- One pass of the animation loop of `main`.  `CheckCollisionPointRec` is the
raylib hit test; drawing has no effect on the variables of `main`. -/
def frame (CheckCollisionPointRec : Vector2 → Rectangle → Bool)
    (num_rows num_columns : Int) (inp : Input) (g : Game) : Option Game :=
  match frame_step CheckCollisionPointRec num_rows num_columns inp (frame_keys inp g) with
  | none => none
  | some g1 => frame_reset num_rows num_columns g1

/-! ### Vocabulary of the specification -/

/-- The state array of a cell array. -/
def states (all_cells : List cell) : List Int := all_cells.map cell.state

/-- The `new_state` array of a cell array. -/
def new_states (all_cells : List cell) : List Int := all_cells.map cell.new_state

/-- The label array of a cell array. -/
def labels (all_cells : List cell) : List Int := all_cells.map cell.label

/-- Every cell carries its own index as label, as `main` sets it up
(`cells[i].label = i`). -/
def well_labelled (all_cells : List cell) : Prop :=
  labels all_cells = (List.range all_cells.length).map Int.ofNat

instance (all_cells : List cell) : Decidable (well_labelled all_cells) := by
  unfold well_labelled; infer_instance

/-- Coherence at rest: `state = new_state` for every cell. -/
def coherent (all_cells : List cell) : Prop :=
  new_states all_cells = states all_cells

instance (all_cells : List cell) : Decidable (coherent all_cells) := by
  unfold coherent; infer_instance

/-- Binary states: every `state` is 0 or 1. -/
def binary (all_cells : List cell) : Prop :=
  ∀ c ∈ all_cells, c.state = 0 ∨ c.state = 1

instance (all_cells : List cell) : Decidable (binary all_cells) := by
  unfold binary; infer_instance

/-- The fields `state` and `new_state` of the cell are 0 or 1. -/
def binary_cell (c : cell) : Prop :=
  (c.state = 0 ∨ c.state = 1) ∧ (c.new_state = 0 ∨ c.new_state = 1)

instance (c : cell) : Decidable (binary_cell c) := by
  unfold binary_cell; infer_instance

/-- Binary states: every `state` and every `new_state` is 0 or 1. -/
def binary_both (all_cells : List cell) : Prop :=
  ∀ c ∈ all_cells, binary_cell c

instance (all_cells : List cell) : Decidable (binary_both all_cells) := by
  unfold binary_both; infer_instance

/-- The state of the cell with index `k`, and 0 (dead) for an index outside
the array. -/
def state_at (all_cells : List cell) (k : Int) : Int :=
  match cell_at all_cells k with
  | none => 0
  | some c => c.state

/-- The `new_state` of the cell with index `k`, and 0 for an index outside the
array. -/
def new_state_at (all_cells : List cell) (k : Int) : Int :=
  match cell_at all_cells k with
  | none => 0
  | some c => c.new_state

/-- The sum of the states at the eight labels `k ± 1`, `k ± num_columns`,
`k ± num_columns ± 1` that `get_neighbor_info` forms for the cell `k`, an index
outside the array counting 0. -/
def label_count (all_cells : List cell) (num_columns k : Int) : Int :=
  ((neighbor_labels k num_columns).map (state_at all_cells)).foldl (· + ·) 0

/-- All eight labels of the cell `k` are indices of the array. -/
def labels_in_bounds (num_cells num_columns k : Int) : Prop :=
  ∀ l ∈ neighbor_labels k num_columns, 0 ≤ l ∧ l < num_cells

instance (num_cells num_columns k : Int) : Decidable (labels_in_bounds num_cells num_columns k) := by
  unfold labels_in_bounds; infer_instance

/-- The eight labels of the cell `k`, and the eight labels of each of them,
are indices of the array. -/
def deep_in_bounds (num_cells num_columns k : Int) : Prop :=
  labels_in_bounds num_cells num_columns k ∧
    ∀ l ∈ neighbor_labels k num_columns, labels_in_bounds num_cells num_columns l

instance (num_cells num_columns k : Int) : Decidable (deep_in_bounds num_cells num_columns k) := by
  unfold deep_in_bounds; infer_instance

/-- Conway's rule B3/S23: the next state of a cell with state `s` and `n`
alive neighbours. -/
def conway_rule (s n : Int) : Int :=
  if s = 1 then (if n = 2 ∨ n = 3 then 1 else 0) else (if n = 3 then 1 else 0)

/-- The eight offsets of the Moore neighbourhood. -/
def moore_offsets : List (Int × Int) :=
  [(-1, -1), (-1, 0), (-1, 1), (0, -1), (0, 1), (1, -1), (1, 0), (1, 1)]

/-- The cell at row `r`, column `c` of the bounded grid is alive; a position
outside `[0, rows) × [0, cols)` is dead. -/
def alive_at (all_cells : List cell) (rows cols r c : Int) : Bool :=
  decide (0 ≤ r ∧ r < rows ∧ 0 ≤ c ∧ c < cols) && decide (state_at all_cells (r * cols + c) = 1)

/-- The number of alive cells in the Moore neighbourhood of the position
`(r, c)` of the bounded, non-wrapping grid. -/
def moore_count (all_cells : List cell) (rows cols r c : Int) : Nat :=
  moore_offsets.countP fun d => alive_at all_cells rows cols (r + d.1) (c + d.2)

/-- One generation of Conway's Life on the bounded grid, as a state array. -/
def conway_step (all_cells : List cell) (rows cols : Int) : List Int :=
  (List.range all_cells.length).map fun (i : Nat) =>
    conway_rule (state_at all_cells i)
      (moore_count all_cells rows cols ((i : Int) / cols) ((i : Int) % cols))

/-- The array after `n` calls of `update_cells`, each on the array the call
before left behind, whatever the calls returned. -/
def update_cells_iter (num_cells num_rows num_columns : Int) :
    Nat → List cell → Option (List cell)
  | 0, all_cells => some all_cells
  | n + 1, all_cells =>
    match update_cells all_cells num_cells num_rows num_columns with
    | none => none
    | some (_, all_cells1) => update_cells_iter num_cells num_rows num_columns n all_cells1

/-- The array `all_cells` with every `new_state` replaced by `f` of the
cell's label: the shape of the array while the first loop of `update_cells`
runs, which writes no other field. -/
def with_new (f : Int → Int) (all_cells : List cell) : List cell :=
  all_cells.map fun c => { c with new_state := f c.label }

/-- The array `all_cells` with `state` and `new_state` both replaced by `f`
of the cell's label. -/
def with_both (f : Int → Int) (all_cells : List cell) : List cell :=
  all_cells.map fun c => { c with state := f c.label, new_state := f c.label }

/-- The effect of the write `all_cells[l].new_state = 1` under the test
`sum_neighbor_states == 3`, for every label `l` of the list `ls`, on the
`new_state` values `f`. -/
def born (all_cells : List cell) (num_columns : Int) (ls : List Int) (f : Int → Int) :
    Int → Int :=
  fun m => if m ∈ ls ∧ label_count all_cells num_columns m = 3 then 1 else f m

/-- The effect of the write `all_cells[i].new_state = 0` under the test
`sum_neighbor_states < 2 || sum_neighbor_states > 3` on the `new_state`
values `f`. -/
def kill (all_cells : List cell) (num_columns : Int) (i : Int) (f : Int → Int) :
    Int → Int :=
  fun m =>
    if m = i ∧ (label_count all_cells num_columns i < 2 ∨ label_count all_cells num_columns i > 3)
    then 0 else f m

/-- The effect of the first loop of `update_cells` over the indices `is` on the
`new_state` values `f`, when no call of `get_neighbor_info` reports an
out-of-bounds label. -/
def pass (all_cells : List cell) (num_columns : Int) : List Nat → (Int → Int) → Int → Int
  | [], f => f
  | i :: rest, f =>
    if state_at all_cells i = 1 then
      pass all_cells num_columns rest
        (born all_cells num_columns (neighbor_labels i num_columns)
          (kill all_cells num_columns i f))
    else pass all_cells num_columns rest f

/-- The value Conway's rule gives the cell `m` when its neighbours are counted
at the eight labels of `get_neighbor_info`. -/
def target (all_cells : List cell) (num_columns m : Int) : Int :=
  conway_rule (state_at all_cells m) (label_count all_cells num_columns m)

/-- The cell `c` with its pixel rectangle replaced by the zero rectangle. -/
def erase_rect (c : cell) : cell := { c with rect_dim := ⟨0, 0, 0, 0⟩ }

/-- The result of `get_neighbor_info` with the rectangles of the copied cells
replaced by the zero rectangle. -/
def erase_info (info : neighbor_info) : neighbor_info :=
  { info with neighbor_cells := info.neighbor_cells.map erase_rect }

/-- The result of a loop of `update_cells` with the rectangles of the array
replaced by the zero rectangle. -/
def erase_result (p : Bool × List cell) : Bool × List cell := (p.1, p.2.map erase_rect)

/-- The number of Moore neighbours of the position `(a, c)` that satisfy `P`. -/
def count8 (P : Int → Int → Bool) (a c : Int) : Nat :=
  moore_offsets.countP fun d => P (a + d.1) (c + d.2)

/-- The alive cells of the array are exactly the cells whose row and column
satisfy `P`, and every other cell has state 0. -/
def is_pattern (all_cells : List cell) (cols : Int) (P : Int → Int → Bool) : Prop :=
  ∀ i : Nat, i < all_cells.length →
    state_at all_cells (i : Int) = if P ((i : Int) / cols) ((i : Int) % cols) = true then 1 else 0

instance (all_cells : List cell) (cols : Int) (P : Int → Int → Bool) :
    Decidable (is_pattern all_cells cols P) := by
  unfold is_pattern; infer_instance

/-- The 2x2 block with top left corner at row `r`, column `c`. -/
def block (r c : Int) (x y : Int) : Bool :=
  decide ((x = r ∨ x = r + 1) ∧ (y = c ∨ y = c + 1))

/-- The horizontal blinker in row `r` with its middle cell in column `c`. -/
def blinker_h (r c : Int) (x y : Int) : Bool :=
  decide (x = r ∧ (y = c - 1 ∨ y = c ∨ y = c + 1))

/-- The vertical blinker in column `c` with its middle cell in row `r`. -/
def blinker_v (r c : Int) (x y : Int) : Bool :=
  decide ((x = r - 1 ∨ x = r ∨ x = r + 1) ∧ y = c)

/-- Two rectangles with no common point: one lies to the left of, or above,
the other. -/
def rect_disjoint (a b : Rectangle) : Prop :=
  a.x + a.width < b.x ∨ b.x + b.width < a.x ∨ a.y + a.height < b.y ∨ b.y + b.height < a.y

instance (a b : Rectangle) : Decidable (rect_disjoint a b) := by
  unfold rect_disjoint; infer_instance

/-- The point lies in the rectangle, its border included. -/
def in_rect (p : Vector2) (r : Rectangle) : Prop :=
  (r.x : Rat) ≤ p.x ∧ p.x ≤ (r.x : Rat) + (r.width : Rat) ∧
    (r.y : Rat) ≤ p.y ∧ p.y ≤ (r.y : Rat) + (r.height : Rat)

instance (p : Vector2) (r : Rectangle) : Decidable (in_rect p r) := by
  unfold in_rect; infer_instance

/-- The point lies inside the rectangle, off its border. -/
def inside_rect (p : Vector2) (r : Rectangle) : Prop :=
  (r.x : Rat) < p.x ∧ p.x < (r.x : Rat) + (r.width : Rat) ∧
    (r.y : Rat) < p.y ∧ p.y < (r.y : Rat) + (r.height : Rat)

instance (p : Vector2) (r : Rectangle) : Decidable (inside_rect p r) := by
  unfold inside_rect; infer_instance

/-- A grid for examples: `num_cells` cells with `label = i`, a zero rectangle,
and `state = new_state = 1` exactly at the listed indices. -/
def mk_grid (num_cells : Nat) (alive : List Nat) : List cell :=
  (List.range num_cells).map fun (i : Nat) =>
    { label := (i : Int), rect_dim := ⟨0, 0, 0, 0⟩,
      state := if i ∈ alive then 1 else 0,
      new_state := if i ∈ alive then 1 else 0 }

end GameOfLife

/-! ## Reading and writing the cell array -/

namespace GameOfLife

theorem well_labelled_get {cs : List cell} (h : well_labelled cs) {i : Nat} {c : cell}
    (hc : cs[i]? = some c) : c.label = (i : Int) := by
  have hi : i < cs.length := by
    rcases List.getElem?_eq_some.mp hc with ⟨hi, _⟩
    exact hi
  have h1 : (labels cs)[i]? = some c.label := by
    simp [labels, hc]
  rw [h] at h1
  simp [List.getElem?_range hi] at h1
  exact h1.symm

theorem cell_at_eq_some {cs : List cell} {k : Int} {c : cell} :
    cell_at cs k = some c ↔ 0 ≤ k ∧ cs[k.toNat]? = some c := by
  unfold cell_at
  by_cases hk : k < 0
  · simp [hk]
  · simp [hk]; omega

theorem cell_at_nat {cs : List cell} (i : Nat) : cell_at cs (i : Int) = cs[i]? := by
  simp [cell_at]

theorem cell_at_exists {cs : List cell} {k : Int} (h0 : 0 ≤ k) (h1 : k < cs.length) :
    ∃ c, cell_at cs k = some c := by
  have hlt : k.toNat < cs.length := by omega
  exact ⟨cs[k.toNat], cell_at_eq_some.mpr ⟨h0, List.getElem?_eq_getElem hlt⟩⟩

theorem cell_at_bounds {cs : List cell} {k : Int} {c : cell} (h : cell_at cs k = some c) :
    0 ≤ k ∧ k < cs.length := by
  rcases cell_at_eq_some.mp h with ⟨h0, h1⟩
  rcases List.getElem?_eq_some.mp h1 with ⟨hi, _⟩
  omega

theorem cell_at_label {cs : List cell} (hwl : well_labelled cs) {k : Int} {c : cell}
    (h : cell_at cs k = some c) : c.label = k := by
  rcases cell_at_eq_some.mp h with ⟨h0, h1⟩
  rw [well_labelled_get hwl h1]
  omega

theorem length_with_new (f : Int → Int) (cs : List cell) :
    (with_new f cs).length = cs.length := by
  simp [with_new]

theorem getElem?_with_new (f : Int → Int) (cs : List cell) (i : Nat) :
    (with_new f cs)[i]? = (cs[i]?).map fun c => { c with new_state := f c.label } := by
  simp [with_new]

theorem cell_at_with_new {cs : List cell} (hwl : well_labelled cs) (f : Int → Int)
    {k : Int} {c : cell} (h : cell_at cs k = some c) :
    cell_at (with_new f cs) k = some { c with new_state := f k } := by
  have hl := cell_at_label hwl h
  rcases cell_at_eq_some.mp h with ⟨h0, h1⟩
  refine cell_at_eq_some.mpr ⟨h0, ?_⟩
  rw [getElem?_with_new, h1]
  simp [hl]

theorem state_at_with_new (f : Int → Int) (cs : List cell) (k : Int) :
    state_at (with_new f cs) k = state_at cs k := by
  unfold state_at cell_at
  by_cases hk : k < 0
  · simp [hk]
  · simp only [hk, if_false, getElem?_with_new]
    cases cs[k.toNat]? <;> rfl

theorem set_with_new {cs : List cell} (hwl : well_labelled cs) (f : Int → Int)
    {i : Nat} {c : cell} (hc : cs[i]? = some c) (v : Int) :
    (with_new f cs).set i { c with new_state := v }
      = with_new (fun m => if m = (i : Int) then v else f m) cs := by
  apply List.ext_getElem?
  intro j
  rw [List.getElem?_set, getElem?_with_new, getElem?_with_new, length_with_new]
  have hi : i < cs.length := by
    rcases List.getElem?_eq_some.mp hc with ⟨hi, _⟩
    exact hi
  by_cases hij : i = j
  · subst hij
    simp [hi, hc, well_labelled_get hwl hc]
  · simp only [hij, if_false]
    cases hj : cs[j]? with
    | none => rfl
    | some d =>
      have hd := well_labelled_get hwl hj
      have : ¬ d.label = (i : Int) := by omega
      simp [this]

/-! ## `get_neighbor_info` -/

theorem copy_cells_with_new {cs : List cell} (hwl : well_labelled cs) (f : Int → Int) :
    ∀ ls : List Int, (∀ l ∈ ls, 0 ≤ l ∧ l < (cs.length : Int)) →
      ∃ ncs, copy_cells (with_new f cs) ls = some ncs ∧ ncs.map cell.label = ls ∧
        ncs.map cell.state = ls.map (state_at cs) := by
  intro ls
  induction ls with
  | nil => intro _; exact ⟨[], rfl, rfl, rfl⟩
  | cons l rest ih =>
    intro h
    have hl := h l (List.mem_cons_self _ _)
    obtain ⟨c, hc⟩ := cell_at_exists hl.1 hl.2
    obtain ⟨ncs, h1, h2, h3⟩ := ih (fun x hx => h x (List.mem_cons_of_mem _ hx))
    refine ⟨{ c with new_state := f l } :: ncs, ?_, ?_, ?_⟩
    · simp [copy_cells, cell_at_with_new hwl f hc, h1]
    · simp [h2, cell_at_label hwl hc]
    · simp [h3, state_at, hc]

theorem any_out_of_bounds_iff (num_cells num_columns k : Int) :
    (neighbor_labels k num_columns).any
        (fun l => decide (l < 0) || decide (l ≥ num_cells)) = true
      ↔ ¬ labels_in_bounds num_cells num_columns k := by
  unfold labels_in_bounds
  simp only [List.any_eq_true, Bool.or_eq_true, decide_eq_true_eq, not_forall]
  constructor
  · rintro ⟨l, hl, h⟩
    exact ⟨l, hl, by omega⟩
  · rintro ⟨l, hl, h⟩
    exact ⟨l, hl, by omega⟩

theorem get_neighbor_info_out {c : cell} (cur : List cell) {R C N k : Int}
    (hk : c.label = k) (h : ¬ labels_in_bounds N C k) :
    get_neighbor_info c cur R C N
      = some { neighbor_cells := [], sum_neighbor_states := 0, out_of_bounds_access := true } := by
  subst hk
  unfold get_neighbor_info
  simp only [(any_out_of_bounds_iff N C c.label).mpr h, if_true]

theorem get_neighbor_info_in {cs : List cell} (hwl : well_labelled cs) (f : Int → Int)
    {c : cell} {R C k : Int} (hk : c.label = k)
    (h : labels_in_bounds (cs.length : Int) C k) :
    ∃ ncs, get_neighbor_info c (with_new f cs) R C (cs.length : Int)
        = some { neighbor_cells := ncs, sum_neighbor_states := label_count cs C k,
                 out_of_bounds_access := false } ∧
      ncs.map cell.label = neighbor_labels k C := by
  subst hk
  obtain ⟨ncs, h1, h2, h3⟩ := copy_cells_with_new hwl f (neighbor_labels c.label C) h
  refine ⟨ncs, ?_, h2⟩
  unfold get_neighbor_info
  have hany : (neighbor_labels c.label C).any
      (fun l => decide (l < 0) || decide (l ≥ (cs.length : Int))) = false := by
    cases hb : (neighbor_labels c.label C).any
      (fun l => decide (l < 0) || decide (l ≥ (cs.length : Int)))
    · rfl
    · exact absurd h ((any_out_of_bounds_iff _ _ _).mp hb)
  simp only [hany, h1, h3, label_count]
  rfl

theorem cell_at_with_new_exists {cs : List cell} (hwl : well_labelled cs) (f : Int → Int)
    {k : Int} (h0 : 0 ≤ k) (h1 : k < (cs.length : Int)) :
    ∃ ci, cell_at (with_new f cs) k = some ci ∧ ci.label = k ∧ ci.state = state_at cs k ∧
      ∀ v, (with_new f cs).set k.toNat { ci with new_state := v }
        = with_new (fun m => if m = k then v else f m) cs := by
  obtain ⟨c, hc⟩ := cell_at_exists h0 h1
  have hc2 := (cell_at_eq_some.mp hc).2
  have hk : ((k.toNat : Nat) : Int) = k := by omega
  refine ⟨{ c with new_state := f k }, cell_at_with_new hwl f hc, ?_, ?_, ?_⟩
  · show c.label = k
    exact cell_at_label hwl hc
  · simp [state_at, hc]
  · intro v
    have hset := set_with_new hwl f hc2 v
    rw [hk] at hset
    exact hset

/-! ## The loops of `update_cells` -/

theorem set_new_state_with_new {cs : List cell} (hwl : well_labelled cs) (f : Int → Int)
    {k : Int} (h0 : 0 ≤ k) (h1 : k < (cs.length : Int)) (v : Int) :
    set_new_state (with_new f cs) k v = some (with_new (fun m => if m = k then v else f m) cs) := by
  obtain ⟨ci, e1, _, _, e4⟩ := cell_at_with_new_exists hwl f h0 h1
  unfold set_new_state
  rw [e1]
  simp only [e4 v]

theorem born_cons_hit (cs : List cell) (C : Int) (l : Int) (rest : List Int) (f : Int → Int)
    (h : label_count cs C l = 3) :
    born cs C rest (fun m => if m = l then 1 else f m) = born cs C (l :: rest) f := by
  funext m
  unfold born
  by_cases hm : m = l
  · subst hm
    simp [h]
  · simp [hm]

theorem born_cons_miss (cs : List cell) (C : Int) (l : Int) (rest : List Int) (f : Int → Int)
    (h : ¬ label_count cs C l = 3) :
    born cs C rest f = born cs C (l :: rest) f := by
  funext m
  unfold born
  by_cases hm : m = l
  · subst hm
    simp [h]
  · simp [hm]

theorem update_neighbors_with_new {cs : List cell} (hwl : well_labelled cs) (R C : Int) :
    ∀ (ncs : List cell) (f : Int → Int),
      (∀ n ∈ ncs, 0 ≤ n.label ∧ n.label < (cs.length : Int)) →
      ∃ b f1, update_neighbors R C (cs.length : Int) ncs (with_new f cs)
          = some (b, with_new f1 cs) ∧
        (b = false ↔ ∀ n ∈ ncs, labels_in_bounds (cs.length : Int) C n.label) ∧
        (b = false → f1 = born cs C (ncs.map cell.label) f) := by
  intro ncs
  induction ncs with
  | nil =>
    intro f _
    refine ⟨false, f, rfl, by simp, ?_⟩
    intro _
    funext m
    simp [born]
  | cons n rest ih =>
    intro f hb
    have hn := hb n (List.mem_cons_self _ _)
    have hrest : ∀ x ∈ rest, 0 ≤ x.label ∧ x.label < (cs.length : Int) :=
      fun x hx => hb x (List.mem_cons_of_mem _ hx)
    obtain ⟨ci, hcur, hcl, _, _⟩ := cell_at_with_new_exists hwl f hn.1 hn.2
    by_cases hin : labels_in_bounds (cs.length : Int) C n.label
    · obtain ⟨nn, hg, _⟩ := get_neighbor_info_in hwl f (R := R) hcl hin
      by_cases h3 : label_count cs C n.label = 3
      · obtain ⟨b, f1, e1, e2, e3⟩ := ih (fun m => if m = n.label then 1 else f m) hrest
        refine ⟨b, f1, ?_, ?_, ?_⟩
        · simp only [update_neighbors, hcur, hg, h3, if_true,
            set_new_state_with_new hwl f hn.1 hn.2 1, e1]
          simp
        · rw [e2]; simp [hin]
        · intro hbf
          rw [e3 hbf, List.map_cons, born_cons_hit cs C n.label _ f h3]
      · obtain ⟨b, f1, e1, e2, e3⟩ := ih f hrest
        refine ⟨b, f1, ?_, ?_, ?_⟩
        · simp only [update_neighbors, hcur, hg, h3, if_false, e1]
          simp
        · rw [e2]; simp [hin]
        · intro hbf
          rw [e3 hbf, List.map_cons, born_cons_miss cs C n.label _ f h3]
    · refine ⟨true, f, ?_, ?_, ?_⟩
      · simp only [update_neighbors, hcur, get_neighbor_info_out _ hcl hin]
        simp
      · simp [hin]
      · intro h; cases h

theorem forall_mem_labels {ncs : List cell} {ls : List Int} (h : ncs.map cell.label = ls)
    (P : Int → Prop) : (∀ n ∈ ncs, P n.label) ↔ ∀ l ∈ ls, P l := by
  subst h
  simp

theorem kill_eq_hit (cs : List cell) (C : Int) (i : Int) (f : Int → Int)
    (h : label_count cs C i < 2 ∨ label_count cs C i > 3) :
    (fun m => if m = i then 0 else f m) = kill cs C i f := by
  funext m
  simp [kill, h]

theorem kill_eq_miss (cs : List cell) (C : Int) (i : Int) (f : Int → Int)
    (h : ¬ (label_count cs C i < 2 ∨ label_count cs C i > 3)) :
    f = kill cs C i f := by
  funext m
  simp only [kill, h, and_false, if_false]

theorem update_loop_dead {R C N : Int} {i : Nat} {rest : List Nat} {cur : List cell} {ci : cell}
    (h : cur[i]? = some ci) (hd : ¬ ci.state = 1) :
    update_loop R C N (i :: rest) cur = update_loop R C N rest cur := by
  rw [update_loop]
  simp only [h]
  rw [if_neg hd]

theorem update_loop_out {R C N : Int} {i : Nat} {rest : List Nat} {cur : List cell} {ci : cell}
    (h : cur[i]? = some ci) (ha : ci.state = 1)
    (hg : get_neighbor_info ci cur R C N
      = some { neighbor_cells := [], sum_neighbor_states := 0, out_of_bounds_access := true }) :
    update_loop R C N (i :: rest) cur = some (true, cur) := by
  rw [update_loop]
  simp only [h]
  rw [if_pos ha]
  simp only [hg, if_true]

theorem update_loop_in {R C N : Int} {i : Nat} {rest : List Nat} {cur cur1 cur2 : List cell}
    {ci : cell} {ncs : List cell} {n : Int} {b : Bool}
    (h : cur[i]? = some ci) (ha : ci.state = 1)
    (hg : get_neighbor_info ci cur R C N
      = some { neighbor_cells := ncs, sum_neighbor_states := n, out_of_bounds_access := false })
    (h1 : (if n < 2 ∨ n > 3 then cur.set i { ci with new_state := 0 } else cur) = cur1)
    (hn : update_neighbors R C N ncs cur1 = some (b, cur2)) :
    update_loop R C N (i :: rest) cur
      = if b then some (true, cur2) else update_loop R C N rest cur2 := by
  rw [update_loop]
  simp only [h]
  rw [if_pos ha]
  simp only [hg, Bool.false_eq_true, if_false]
  rw [h1, hn]
  cases b <;> rfl

theorem update_loop_with_new {cs : List cell} (hwl : well_labelled cs) (R C : Int) :
    ∀ (is : List Nat) (f : Int → Int), (∀ i ∈ is, i < cs.length) →
      ∃ b f1, update_loop R C (cs.length : Int) is (with_new f cs) = some (b, with_new f1 cs) ∧
        (b = false ↔
          ∀ i ∈ is, state_at cs (i : Int) = 1 → deep_in_bounds (cs.length : Int) C (i : Int)) ∧
        (b = false → f1 = pass cs C is f) := by
  intro is
  induction is with
  | nil =>
    intro f _
    exact ⟨false, f, rfl, by simp, fun _ => rfl⟩
  | cons i rest ih =>
    intro f hb
    have hi := hb i (List.mem_cons_self _ _)
    have hrest : ∀ x ∈ rest, x < cs.length := fun x hx => hb x (List.mem_cons_of_mem _ hx)
    obtain ⟨ci, hcur0, hcl, hst, hset0⟩ :=
      cell_at_with_new_exists hwl f (k := (i : Int)) (by omega) (by omega)
    have hcur : (with_new f cs)[i]? = some ci := by
      rw [← cell_at_nat]; exact hcur0
    have hset : ∀ v, (with_new f cs).set i { ci with new_state := v }
        = with_new (fun m => if m = (i : Int) then v else f m) cs := by
      intro v
      have := hset0 v
      simpa using this
    by_cases halive : ci.state = 1
    · have halive1 : state_at cs (i : Int) = 1 := by rw [← hst]; exact halive
      by_cases hin : labels_in_bounds (cs.length : Int) C (i : Int)
      · obtain ⟨ncs, hg, hlab1⟩ := get_neighbor_info_in hwl f (R := R) hcl hin
        have hcells1 :
            (if label_count cs C (i : Int) < 2 ∨ label_count cs C (i : Int) > 3
              then (with_new f cs).set i { ci with new_state := 0 }
              else with_new f cs) = with_new (kill cs C (i : Int) f) cs := by
          by_cases hk : label_count cs C (i : Int) < 2 ∨ label_count cs C (i : Int) > 3
          · rw [if_pos hk, ← kill_eq_hit cs C (i : Int) f hk]
            exact hset 0
          · rw [if_neg hk, ← kill_eq_miss cs C (i : Int) f hk]
        have hnb : ∀ n ∈ ncs, 0 ≤ n.label ∧ n.label < (cs.length : Int) :=
          (forall_mem_labels hlab1 (fun l => 0 ≤ l ∧ l < (cs.length : Int))).mpr hin
        obtain ⟨b1, f2, e1, e2, e3⟩ :=
          update_neighbors_with_new hwl R C ncs (kill cs C (i : Int) f) hnb
        have e2b : b1 = false ↔ ∀ l ∈ neighbor_labels (i : Int) C,
            labels_in_bounds (cs.length : Int) C l :=
          e2.trans (forall_mem_labels hlab1 (fun l => labels_in_bounds (cs.length : Int) C l))
        cases b1 with
        | true =>
          refine ⟨true, f2, ?_, ?_, ?_⟩
          · rw [update_loop_in hcur halive hg hcells1 e1]
            rfl
          · constructor
            · intro h; cases h
            · intro h
              have hd := h i (List.mem_cons_self _ _) halive1
              have := e2b.mpr hd.2
              cases this
          · intro h; cases h
        | false =>
          have hf2 := e3 rfl
          have hdeep : deep_in_bounds (cs.length : Int) C (i : Int) := ⟨hin, e2b.mp rfl⟩
          obtain ⟨b, f3, g1, g2, g3⟩ := ih f2 hrest
          refine ⟨b, f3, ?_, ?_, ?_⟩
          · rw [update_loop_in hcur halive hg hcells1 e1]
            exact g1
          · rw [g2]
            simp [hdeep]
          · intro hbf
            rw [g3 hbf, hf2, hlab1]
            simp [pass, halive1]
      · refine ⟨true, f, ?_, ?_, ?_⟩
        · exact update_loop_out hcur halive (get_neighbor_info_out _ hcl hin)
        · constructor
          · intro h; cases h
          · intro h
            have hd := h i (List.mem_cons_self _ _) halive1
            exact absurd hd.1 hin
        · intro h; cases h
    · have halive1 : ¬ state_at cs (i : Int) = 1 := by rw [← hst]; exact halive
      obtain ⟨b, f3, g1, g2, g3⟩ := ih f hrest
      refine ⟨b, f3, ?_, ?_, ?_⟩
      · rw [update_loop_dead hcur halive]
        exact g1
      · rw [g2]
        simp [halive1]
      · intro hbf
        rw [g3 hbf]
        simp [pass, halive1]

theorem for_cells_range' (f : cell → cell) :
    ∀ (k s : Nat) (l : List cell), s + k ≤ l.length →
      ∃ r, for_cells f (List.range' s k) l = some r ∧
        ∀ j, r[j]? = if s ≤ j ∧ j < s + k then (l[j]?).map f else l[j]? := by
  intro k
  induction k with
  | zero =>
    intro s l _
    refine ⟨l, rfl, ?_⟩
    intro j
    have : ¬ (s ≤ j ∧ j < s + 0) := by omega
    rw [if_neg this]
  | succ k ih =>
    intro s l h
    have hs : s < l.length := by omega
    obtain ⟨r, hr, hj⟩ := ih (s + 1) (l.set s (f l[s])) (by simp; omega)
    refine ⟨r, ?_, ?_⟩
    · rw [List.range'_succ, for_cells]
      simp only [List.getElem?_eq_getElem hs]
      exact hr
    · intro j
      rw [hj j, List.getElem?_set]
      by_cases h1 : s = j
      · subst h1
        have c1 : ¬ (s + 1 ≤ s ∧ s < s + 1 + k) := by omega
        have c2 : s ≤ s ∧ s < s + (k + 1) := by omega
        simp [c1, c2, hs]
      · by_cases h2 : s + 1 ≤ j ∧ j < s + 1 + k
        · have c2 : s ≤ j ∧ j < s + (k + 1) := by omega
          simp [h1, h2, c2]
        · have c2 : ¬ (s ≤ j ∧ j < s + (k + 1)) := by omega
          simp [h1, h2, c2]

theorem for_cells_range (f : cell → cell) (l : List cell) :
    for_cells f (List.range l.length) l = some (l.map f) := by
  obtain ⟨r, hr, hj⟩ := for_cells_range' f l.length 0 l (by omega)
  rw [List.range_eq_range', hr]
  congr 1
  apply List.ext_getElem?
  intro j
  rw [hj j, List.getElem?_map]
  by_cases h : j < l.length
  · simp [h]
  · have hn : l[j]? = none := List.getElem?_eq_none (by omega)
    simp [h, hn]

theorem refresh_with_new (f : Int → Int) (cs : List cell) :
    (with_new f cs).map refresh = with_both f cs := by
  simp [with_new, with_both, refresh]

theorem length_with_both (f : Int → Int) (cs : List cell) :
    (with_both f cs).length = cs.length := by
  simp [with_both]

/-- What `update_cells` does on a well-labelled array, for any `new_state`
values `f` found at entry: it returns 0 exactly when every alive cell has all
its labels, and theirs, inside the array; then both `state` and `new_state`
hold the values the first loop computed; and on a return of 1 only
`new_state` values differ from the array at entry. -/
theorem update_cells_with_new {cs : List cell} (hwl : well_labelled cs) (f : Int → Int)
    (R C : Int) :
    ∃ b f1, update_cells (with_new f cs) (cs.length : Int) R C
        = some (b, if b then with_new f1 cs else with_both f1 cs) ∧
      (b = false ↔ ∀ i : Nat, i < cs.length → state_at cs (i : Int) = 1 →
        deep_in_bounds (cs.length : Int) C (i : Int)) ∧
      (b = false → f1 = pass cs C (List.range cs.length) f) := by
  obtain ⟨b, f1, e1, e2, e3⟩ := update_loop_with_new hwl R C (List.range cs.length) f
    (fun i hi => List.mem_range.mp hi)
  refine ⟨b, f1, ?_, ?_, e3⟩
  · unfold update_cells
    have hn : ((cs.length : Int)).toNat = cs.length := by omega
    rw [hn, e1]
    cases b with
    | true => rfl
    | false =>
      have hfc := for_cells_range refresh (with_new f1 cs)
      rw [length_with_new] at hfc
      simp only [hfc, refresh_with_new]
      rfl
  · rw [e2]
    constructor
    · intro h i hi; exact h i (List.mem_range.mpr hi)
    · intro h i hi; exact h i (List.mem_range.mp hi)

/-! ## The values the first loop computes -/

theorem target_of_three {cs : List cell} {C m : Int} (h : label_count cs C m = 3) :
    target cs C m = 1 := by
  unfold target conway_rule
  rw [h]
  by_cases hs : state_at cs m = 1 <;> simp [hs]

theorem target_of_crowd {cs : List cell} {C m : Int} (hs : state_at cs m = 1)
    (h : label_count cs C m < 2 ∨ label_count cs C m > 3) : target cs C m = 0 := by
  unfold target conway_rule
  have : ¬ (label_count cs C m = 2 ∨ label_count cs C m = 3) := by omega
  simp [hs, this]

theorem step_or (cs : List cell) (C : Int) (ls : List Int) (i : Int) (f : Int → Int) (m : Int)
    (hi : state_at cs i = 1) :
    born cs C ls (kill cs C i f) m = f m ∨ born cs C ls (kill cs C i f) m = target cs C m := by
  unfold born
  by_cases h1 : m ∈ ls ∧ label_count cs C m = 3
  · right
    rw [if_pos h1, target_of_three h1.2]
  · rw [if_neg h1]
    unfold kill
    by_cases h2 : m = i ∧ (label_count cs C i < 2 ∨ label_count cs C i > 3)
    · right
      rw [if_pos h2]
      obtain ⟨rfl, h3⟩ := h2
      rw [target_of_crowd hi h3]
    · left
      rw [if_neg h2]

theorem step_target (cs : List cell) (C : Int) (ls : List Int) (i : Int) (f : Int → Int)
    (m : Int) (hi : state_at cs i = 1) (h : f m = target cs C m) :
    born cs C ls (kill cs C i f) m = target cs C m := by
  rcases step_or cs C ls i f m hi with h1 | h1
  · rw [h1, h]
  · exact h1

theorem pass_stable (cs : List cell) (C : Int) :
    ∀ (is : List Nat) (f : Int → Int) (m : Int),
      f m = target cs C m → pass cs C is f m = target cs C m := by
  intro is
  induction is with
  | nil => intro f m h; exact h
  | cons i rest ih =>
    intro f m h
    unfold pass
    by_cases hi : state_at cs (i : Int) = 1
    · rw [if_pos hi]
      exact ih _ m (step_target cs C _ _ f m hi h)
    · rw [if_neg hi]
      exact ih f m h

theorem pass_or (cs : List cell) (C : Int) :
    ∀ (is : List Nat) (f : Int → Int) (m : Int),
      pass cs C is f m = f m ∨ pass cs C is f m = target cs C m := by
  intro is
  induction is with
  | nil => intro f m; exact Or.inl rfl
  | cons i rest ih =>
    intro f m
    unfold pass
    by_cases hi : state_at cs (i : Int) = 1
    · rw [if_pos hi]
      rcases step_or cs C (neighbor_labels (i : Int) C) (i : Int) f m hi with h1 | h1
      · rcases ih (born cs C (neighbor_labels (i : Int) C) (kill cs C (i : Int) f)) m with h2 | h2
        · left; rw [h2, h1]
        · right; exact h2
      · right
        exact pass_stable cs C rest _ m h1
    · rw [if_neg hi]
      exact ih f m

theorem pass_kill (cs : List cell) (C : Int) :
    ∀ (is : List Nat) (f : Int → Int) (i : Nat), i ∈ is → state_at cs (i : Int) = 1 →
      (label_count cs C (i : Int) < 2 ∨ label_count cs C (i : Int) > 3) →
      pass cs C is f (i : Int) = target cs C (i : Int) := by
  intro is
  induction is with
  | nil => intro f i hi; cases hi
  | cons j rest ih =>
    intro f i hi hs hc
    by_cases hij : i = j
    · subst hij
      unfold pass
      rw [if_pos hs]
      apply pass_stable
      have h3 : ¬ label_count cs C (i : Int) = 3 := by omega
      rw [target_of_crowd hs hc]
      simp [born, kill, h3, hc]
    · have hir : i ∈ rest := by
        rcases List.mem_cons.mp hi with h | h
        · exact absurd h hij
        · exact h
      unfold pass
      by_cases hj : state_at cs (j : Int) = 1
      · rw [if_pos hj]; exact ih _ i hir hs hc
      · rw [if_neg hj]; exact ih f i hir hs hc

theorem pass_born (cs : List cell) (C : Int) :
    ∀ (is : List Nat) (f : Int → Int) (i : Nat) (m : Int), i ∈ is →
      state_at cs (i : Int) = 1 → m ∈ neighbor_labels (i : Int) C → label_count cs C m = 3 →
      pass cs C is f m = target cs C m := by
  intro is
  induction is with
  | nil => intro f i m hi; cases hi
  | cons j rest ih =>
    intro f i m hi hs hm hc
    by_cases hij : i = j
    · subst hij
      unfold pass
      rw [if_pos hs]
      apply pass_stable
      rw [target_of_three hc]
      simp [born, hm, hc]
    · have hir : i ∈ rest := by
        rcases List.mem_cons.mp hi with h | h
        · exact absurd h hij
        · exact h
      unfold pass
      by_cases hj : state_at cs (j : Int) = 1
      · rw [if_pos hj]; exact ih _ i m hir hs hm hc
      · rw [if_neg hj]; exact ih f i m hir hs hm hc

theorem state_at_binary {cs : List cell} (hbin : binary cs) (k : Int) :
    state_at cs k = 0 ∨ state_at cs k = 1 := by
  unfold state_at
  cases h : cell_at cs k with
  | none => exact Or.inl rfl
  | some c =>
    have hc := (cell_at_eq_some.mp h).2
    exact hbin c (List.mem_iff_getElem?.mpr ⟨_, hc⟩)

theorem state_at_alive_bounds {cs : List cell} {k : Int} (h : state_at cs k = 1) :
    0 ≤ k ∧ k < (cs.length : Int) := by
  unfold state_at at h
  cases hc : cell_at cs k with
  | none => rw [hc] at h; cases h
  | some c => exact cell_at_bounds hc

theorem mem_neighbor_labels_symm {C l m : Int} (h : l ∈ neighbor_labels m C) :
    m ∈ neighbor_labels l C := by
  simp only [neighbor_labels, List.mem_cons, List.mem_singleton, List.not_mem_nil, or_false] at h ⊢
  omega

theorem exists_alive_of_count {cs : List cell} (hbin : binary cs) {C m : Int}
    (h : label_count cs C m = 3) :
    ∃ l ∈ neighbor_labels m C, state_at cs l = 1 := by
  by_contra hno
  have hz : ∀ l ∈ neighbor_labels m C, state_at cs l = 0 := by
    intro l hl
    rcases state_at_binary hbin l with h0 | h1
    · exact h0
    · exact absurd ⟨l, hl, h1⟩ hno
  have h8 : label_count cs C m = 0 := by
    unfold label_count
    simp only [neighbor_labels, List.mem_cons, List.mem_singleton, List.not_mem_nil, or_false,
      forall_eq_or_imp, forall_eq] at hz
    simp only [neighbor_labels, List.map_cons, List.map_nil, List.foldl_cons, List.foldl_nil]
    omega
  omega

/-- With binary states and `new_state = state` at entry, the first loop of
`update_cells` leaves in `new_state` of every cell the value of Conway's rule
for the count over the eight labels. -/
theorem pass_target {cs : List cell} (hbin : binary cs) (C : Int) (m : Int)
    (h0 : 0 ≤ m) (h1 : m < (cs.length : Int)) :
    pass cs C (List.range cs.length) (state_at cs) m = target cs C m := by
  have hmem : m.toNat ∈ List.range cs.length := List.mem_range.mpr (by omega)
  have hm : ((m.toNat : Nat) : Int) = m := by omega
  by_cases heq : target cs C m = state_at cs m
  · rcases pass_or cs C (List.range cs.length) (state_at cs) m with h | h
    · rw [h, heq]
    · exact h
  · rcases state_at_binary hbin m with hs | hs
    · have h3 : label_count cs C m = 3 := by
        by_contra hne
        apply heq
        unfold target conway_rule
        simp [hs, hne]
      obtain ⟨l, hl, hla⟩ := exists_alive_of_count hbin h3
      have hlb := state_at_alive_bounds hla
      have hl2 : ((l.toNat : Nat) : Int) = l := by omega
      have hlmem : l.toNat ∈ List.range cs.length := List.mem_range.mpr (by omega)
      refine pass_born cs C _ _ l.toNat m hlmem (by rw [hl2]; exact hla) ?_ h3
      rw [hl2]
      exact mem_neighbor_labels_symm hl
    · have hc : label_count cs C m < 2 ∨ label_count cs C m > 3 := by
        by_contra hne
        apply heq
        unfold target conway_rule
        have : label_count cs C m = 2 ∨ label_count cs C m = 3 := by omega
        simp [hs, this]
      have := pass_kill cs C (List.range cs.length) (state_at cs) m.toNat hmem
        (by rw [hm]; exact hs) (by rw [hm]; exact hc)
      rw [hm] at this
      exact this

/-! ## `update_cells` on a grid at rest -/

theorem coherent_get {cs : List cell} (h : coherent cs) {i : Nat} {c : cell}
    (hc : cs[i]? = some c) : c.new_state = c.state := by
  have h1 : (new_states cs)[i]? = some c.new_state := by simp [new_states, hc]
  rw [h] at h1
  simp [states, hc] at h1
  exact h1.symm

theorem with_new_state_at {cs : List cell} (hwl : well_labelled cs) (hco : coherent cs) :
    with_new (state_at cs) cs = cs := by
  apply List.ext_getElem?
  intro i
  rw [getElem?_with_new]
  cases hc : cs[i]? with
  | none => rfl
  | some c =>
    have h1 := well_labelled_get hwl hc
    have h2 := coherent_get hco hc
    have h3 : state_at cs c.label = c.state := by
      rw [h1]; simp [state_at, cell_at_nat, hc]
    cases c with
    | mk l r st ns =>
      simp only at h2 h3
      subst h2
      simp only [Option.map_some', h3]

theorem with_both_congr {cs : List cell} (hwl : well_labelled cs) {f g : Int → Int}
    (h : ∀ m : Int, 0 ≤ m → m < (cs.length : Int) → f m = g m) :
    with_both f cs = with_both g cs := by
  apply List.ext_getElem?
  intro i
  simp only [with_both, List.getElem?_map]
  cases hc : cs[i]? with
  | none => rfl
  | some c =>
    have h1 := well_labelled_get hwl hc
    have hi : i < cs.length := by
      rcases List.getElem?_eq_some.mp hc with ⟨hi, _⟩
      exact hi
    have := h c.label (by omega) (by omega)
    simp [this]

theorem labels_with_both (f : Int → Int) (cs : List cell) :
    labels (with_both f cs) = labels cs := by
  simp [labels, with_both]

theorem labels_with_new (f : Int → Int) (cs : List cell) :
    labels (with_new f cs) = labels cs := by
  simp [labels, with_new]

theorem well_labelled_with_both {cs : List cell} (hwl : well_labelled cs) (f : Int → Int) :
    well_labelled (with_both f cs) := by
  unfold well_labelled at hwl ⊢
  rw [labels_with_both, length_with_both]
  exact hwl

theorem coherent_with_both (f : Int → Int) (cs : List cell) : coherent (with_both f cs) := by
  simp [coherent, new_states, states, with_both]

theorem state_at_with_both {cs : List cell} (hwl : well_labelled cs) (f : Int → Int)
    {k : Int} (h0 : 0 ≤ k) (h1 : k < (cs.length : Int)) :
    state_at (with_both f cs) k = f k := by
  obtain ⟨c, hc⟩ := cell_at_exists h0 h1
  have hl := cell_at_label hwl hc
  have hc2 := (cell_at_eq_some.mp hc).2
  have : cell_at (with_both f cs) k
      = some { c with state := f c.label, new_state := f c.label } := by
    refine cell_at_eq_some.mpr ⟨h0, ?_⟩
    simp [with_both, hc2]
  simp [state_at, this, hl]

theorem states_with_both {cs : List cell} (hwl : well_labelled cs) (f : Int → Int) :
    states (with_both f cs) = (List.range cs.length).map fun (i : Nat) => f (i : Int) := by
  apply List.ext_getElem?
  intro i
  simp only [states, with_both, List.getElem?_map, List.map_map]
  by_cases hi : i < cs.length
  · have hc : cs[i]? = some cs[i] := List.getElem?_eq_getElem hi
    have hl := well_labelled_get hwl hc
    simp [hc, List.getElem?_range hi, hl]
  · have h1 : cs[i]? = none := List.getElem?_eq_none (by omega)
    have h2 : (List.range cs.length)[i]? = none := List.getElem?_eq_none (by simp; omega)
    simp [h1, h2]

theorem states_with_new (f : Int → Int) (cs : List cell) :
    states (with_new f cs) = states cs := by
  simp [states, with_new]

theorem conway_rule_binary (s n : Int) : conway_rule s n = 0 ∨ conway_rule s n = 1 := by
  unfold conway_rule
  split_ifs <;> simp

theorem binary_with_both {cs : List cell} {f : Int → Int} (h : ∀ m, f m = 0 ∨ f m = 1) :
    binary (with_both f cs) := by
  intro c hc
  simp only [with_both, List.mem_map] at hc
  obtain ⟨d, _, rfl⟩ := hc
  exact h d.label

theorem deep_in_bounds_iff {N C k : Int} (hC : 0 ≤ C) :
    deep_in_bounds N C k ↔ 2 * C + 2 ≤ k ∧ k ≤ N - 2 * C - 3 := by
  unfold deep_in_bounds labels_in_bounds
  simp only [neighbor_labels, List.mem_cons, List.mem_singleton, List.not_mem_nil, or_false,
    forall_eq_or_imp, forall_eq]
  omega

/-- On a well-labelled grid at rest with binary states, in which every alive
cell has its labels and theirs inside the array, `update_cells` returns 0 and
leaves in `state` and `new_state` of every cell the value of Conway's rule for
the count over the eight labels. -/
theorem update_cells_at_rest {cs : List cell} (hwl : well_labelled cs) (hco : coherent cs)
    (hbin : binary cs) (R C : Int)
    (hdeep : ∀ i : Nat, i < cs.length → state_at cs (i : Int) = 1 →
      deep_in_bounds (cs.length : Int) C (i : Int)) :
    update_cells cs (cs.length : Int) R C = some (false, with_both (target cs C) cs) := by
  obtain ⟨b, f1, e1, e2, e3⟩ := update_cells_with_new hwl (state_at cs) R C
  rw [with_new_state_at hwl hco] at e1
  have hb : b = false := e2.mpr hdeep
  subst hb
  rw [e1, e3 rfl]
  simp only [Bool.false_eq_true, if_false]
  congr 2
  apply with_both_congr hwl
  intro m h0 h1
  exact pass_target hbin C m h0 h1

/-- On a well-labelled array in which some alive cell has a label, or a label
of a label, outside the array, `update_cells` returns 1 and has written
`new_state` values only. -/
theorem update_cells_error {cs : List cell} (hwl : well_labelled cs) (f : Int → Int)
    (R C : Int)
    (hbad : ¬ ∀ i : Nat, i < cs.length → state_at cs (i : Int) = 1 →
      deep_in_bounds (cs.length : Int) C (i : Int)) :
    ∃ f1, update_cells (with_new f cs) (cs.length : Int) R C = some (true, with_new f1 cs) := by
  obtain ⟨b, f1, e1, e2, _⟩ := update_cells_with_new hwl f R C
  cases b with
  | false => exact absurd (e2.mp rfl) hbad
  | true => exact ⟨f1, e1⟩

/-! ## The eight labels and the Moore neighbourhood -/

theorem state_at_outside {cs : List cell} {k : Int} (h : k < 0 ∨ (cs.length : Int) ≤ k) :
    state_at cs k = 0 := by
  unfold state_at
  cases hc : cell_at cs k with
  | none => rfl
  | some c =>
    have := cell_at_bounds hc
    omega

theorem index_in_grid (rows : Int) {C a b : Int} (hC : 0 < C) (hb0 : 0 ≤ b) (hb1 : b < C) :
    (0 ≤ a * C + b ∧ a * C + b < rows * C) ↔ (0 ≤ a ∧ a < rows) := by
  constructor
  · rintro ⟨h1, h2⟩
    constructor
    · by_contra hneg
      have : a * C ≤ (-1) * C := Int.mul_le_mul_of_nonneg_right (by omega) (by omega)
      omega
    · by_contra hneg
      have : rows * C ≤ a * C := Int.mul_le_mul_of_nonneg_right (by omega) (by omega)
      omega
  · rintro ⟨h1, h2⟩
    have e1 : 0 * C ≤ a * C := Int.mul_le_mul_of_nonneg_right h1 (by omega)
    have e2 : a * C ≤ (rows - 1) * C := Int.mul_le_mul_of_nonneg_right (by omega) (by omega)
    have e3 : (rows - 1) * C = rows * C - C := by ring
    omega

theorem term_in {cs : List cell} (hbin : binary cs) {rows C : Int}
    (hlen : (cs.length : Int) = rows * C) (hC : 0 < C) (a b : Int)
    (hb0 : 0 ≤ b) (hb1 : b < C) :
    state_at cs (a * C + b) = if alive_at cs rows C a b = true then 1 else 0 := by
  unfold alive_at
  by_cases hg : 0 ≤ a ∧ a < rows
  · have hg4 : 0 ≤ a ∧ a < rows ∧ 0 ≤ b ∧ b < C := ⟨hg.1, hg.2, hb0, hb1⟩
    rcases state_at_binary hbin (a * C + b) with h | h
    · simp [hg4, h]
    · simp [hg4, h]
  · have hout : state_at cs (a * C + b) = 0 := by
      apply state_at_outside
      have := (index_in_grid rows (a := a) hC hb0 hb1).not.mpr hg
      omega
    have hg4 : ¬ (0 ≤ a ∧ a < rows ∧ 0 ≤ b ∧ b < C) := fun h => hg ⟨h.1, h.2.1⟩
    simp [hg4, hout]

theorem term_edge {cs : List cell} (hbin : binary cs) {rows C : Int} (hC : 0 < C)
    (hedge : ∀ k : Int, state_at cs k = 1 → 1 ≤ k % C ∧ k % C + 2 ≤ C)
    (a b : Int) (hb : b = -1 ∨ b = C) :
    state_at cs (a * C + b) = if alive_at cs rows C a b = true then 1 else 0 := by
  have hg4 : ¬ (0 ≤ a ∧ a < rows ∧ 0 ≤ b ∧ b < C) := by omega
  have hdead : state_at cs (a * C + b) = 0 := by
    rcases state_at_binary hbin (a * C + b) with h | h
    · exact h
    · exfalso
      have he := hedge _ h
      rcases hb with hb | hb
      · have e : a * C + b = (C - 1) + (a - 1) * C := by rw [hb]; ring
        rw [e, Int.add_mul_emod_self, Int.emod_eq_of_lt (by omega) (by omega)] at he
        omega
      · have e : a * C + b = 0 + (a + 1) * C := by rw [hb]; ring
        rw [e, Int.add_mul_emod_self, Int.zero_emod] at he
        omega
  unfold alive_at
  simp [hg4, hdead]

theorem label_count_of_terms {cs : List cell} {rows C k r c : Int} (hk : k = r * C + c)
    (T : ∀ a b : Int, (a = r + -1 ∨ a = r + 0 ∨ a = r + 1) → (b = c + -1 ∨ b = c + 0 ∨ b = c + 1) →
      state_at cs (a * C + b) = if alive_at cs rows C a b = true then 1 else 0) :
    label_count cs C k = (moore_count cs rows C r c : Int) := by
  have e1 : k - 1 = (r + 0) * C + (c + -1) := by rw [hk]; ring
  have e2 : k + 1 = (r + 0) * C + (c + 1) := by rw [hk]; ring
  have e3 : k + C = (r + 1) * C + (c + 0) := by rw [hk]; ring
  have e4 : k + C - 1 = (r + 1) * C + (c + -1) := by rw [hk]; ring
  have e5 : k + C + 1 = (r + 1) * C + (c + 1) := by rw [hk]; ring
  have e6 : k - C = (r + -1) * C + (c + 0) := by rw [hk]; ring
  have e7 : k - C - 1 = (r + -1) * C + (c + -1) := by rw [hk]; ring
  have e8 : k - C + 1 = (r + -1) * C + (c + 1) := by rw [hk]; ring
  have t1 := T (r + 0) (c + -1) (by simp) (by simp)
  have t2 := T (r + 0) (c + 1) (by simp) (by simp)
  have t3 := T (r + 1) (c + 0) (by simp) (by simp)
  have t4 := T (r + 1) (c + -1) (by simp) (by simp)
  have t5 := T (r + 1) (c + 1) (by simp) (by simp)
  have t6 := T (r + -1) (c + 0) (by simp) (by simp)
  have t7 := T (r + -1) (c + -1) (by simp) (by simp)
  have t8 := T (r + -1) (c + 1) (by simp) (by simp)
  unfold label_count moore_count
  simp only [neighbor_labels, moore_offsets, List.map_cons, List.map_nil, List.foldl_cons,
    List.foldl_nil, List.countP_cons, List.countP_nil]
  rw [e1, e2, e4, e5, e3, e7, e8, e6, t1, t2, t3, t4, t5, t6, t7, t8]
  push_cast
  ring

/-- For a cell in a column other than the first and the last, the sum over the
eight labels is the number of alive Moore neighbours on the bounded grid. -/
theorem label_count_eq_moore_inner {cs : List cell} (hbin : binary cs) {rows C : Int}
    (hlen : (cs.length : Int) = rows * C) (hC : 0 < C) (k : Int)
    (h1 : 1 ≤ k % C) (h2 : k % C + 2 ≤ C) :
    label_count cs C k = (moore_count cs rows C (k / C) (k % C) : Int) := by
  apply label_count_of_terms (by have := Int.ediv_add_emod' k C; omega)
  intro a b _ hb
  exact term_in hbin hlen hC a b (by omega) (by omega)

/-- When no alive cell lies in the first or the last column, the sum over the
eight labels is the number of alive Moore neighbours for every cell. -/
theorem label_count_eq_moore_edge {cs : List cell} (hbin : binary cs) {rows C : Int}
    (hlen : (cs.length : Int) = rows * C) (hC : 0 < C)
    (hedge : ∀ k : Int, state_at cs k = 1 → 1 ≤ k % C ∧ k % C + 2 ≤ C) (k : Int) :
    label_count cs C k = (moore_count cs rows C (k / C) (k % C) : Int) := by
  apply label_count_of_terms (by have := Int.ediv_add_emod' k C; omega)
  intro a b _ hb
  have hm0 : 0 ≤ k % C := Int.emod_nonneg k (by omega)
  have hm1 : k % C < C := Int.emod_lt_of_pos k hC
  by_cases hin : 0 ≤ b ∧ b < C
  · exact term_in hbin hlen hC a b hin.1 hin.2
  · exact term_edge hbin hC hedge a b (by omega)

theorem with_new_self {cs : List cell} (hwl : well_labelled cs) :
    with_new (new_state_at cs) cs = cs := by
  apply List.ext_getElem?
  intro i
  rw [getElem?_with_new]
  cases hc : cs[i]? with
  | none => rfl
  | some c =>
    have h1 := well_labelled_get hwl hc
    have h3 : new_state_at cs c.label = c.new_state := by
      rw [h1]; simp [new_state_at, cell_at_nat, hc]
    simp only [Option.map_some', h3]

/-! ## C1: the transition and Conway's rule -/

/-- C1, as the claim states it, fails on the code.  On the 3x3 grid whose only
alive cell is the centre, `update_cells` returns 1 and leaves the centre alive,
while Conway's rule kills it.  On the 6x4 grid with alive cells 11, 12, 13
(the end of row 2 and the start of row 3) `update_cells` returns 0 and keeps
cell 12 (row 3, column 0) alive, because its labels 11 and 13 are both alive,
while on the bounded grid it has one alive neighbour and dies. -/
theorem update_cells_conway_counterexample :
    (well_labelled (mk_grid 9 [4]) ∧ coherent (mk_grid 9 [4]) ∧ binary (mk_grid 9 [4]) ∧
      (update_cells (mk_grid 9 [4]) 9 3 3).map (fun p => (p.1, states p.2))
        = some (true, [0, 0, 0, 0, 1, 0, 0, 0, 0]) ∧
      conway_step (mk_grid 9 [4]) 3 3 = [0, 0, 0, 0, 0, 0, 0, 0, 0]) ∧
    (well_labelled (mk_grid 24 [11, 12, 13]) ∧ coherent (mk_grid 24 [11, 12, 13]) ∧
      binary (mk_grid 24 [11, 12, 13]) ∧
      (update_cells (mk_grid 24 [11, 12, 13]) 24 6 4).map (fun p => (p.1, states p.2))
        = some (false, states (mk_grid 24 [8, 12, 16])) ∧
      conway_step (mk_grid 24 [11, 12, 13]) 6 4 = states (mk_grid 24 [])) := by
  decide

/-- C1 (amended): on a `rows x cols` grid with `label = i` and
`state = new_state` in {0,1} on which `update_cells` returns 0, every cell in
a column other than the first and the last ends in the state Conway's rule
B3/S23 gives it on the bounded grid, and if no alive cell lay in the first or
the last column, the whole state array is one Conway generation of the
bounded grid. -/
theorem update_cells_conway (cs out : List cell) (rows cols : Int)
    (hrows : 1 ≤ rows) (hcols : 1 ≤ cols) (hlen : (cs.length : Int) = rows * cols)
    (hwl : well_labelled cs) (hco : coherent cs) (hbin : binary cs)
    (hret : update_cells cs (rows * cols) rows cols = some (false, out)) :
    (∀ i : Nat, i < cs.length → 1 ≤ (i : Int) % cols → (i : Int) % cols + 2 ≤ cols →
      state_at out (i : Int) = conway_rule (state_at cs (i : Int))
        (moore_count cs rows cols ((i : Int) / cols) ((i : Int) % cols))) ∧
    ((∀ k : Int, state_at cs k = 1 → 1 ≤ k % cols ∧ k % cols + 2 ≤ cols) →
      states out = conway_step cs rows cols) := by
  have _ := hrows
  rw [← hlen] at hret
  obtain ⟨b, f1, e1, e2, _⟩ := update_cells_with_new hwl (state_at cs) rows cols
  rw [with_new_state_at hwl hco, hret] at e1
  have hb : b = false := by
    have := congrArg (fun o => o.map Prod.fst) e1
    simpa using this.symm
  have hdeep := e2.mp hb
  have hout : out = with_both (target cs cols) cs := by
    have := update_cells_at_rest hwl hco hbin rows cols hdeep
    rw [hret] at this
    simpa using this
  subst hout
  constructor
  · intro i hi h1 h2
    rw [state_at_with_both hwl _ (by omega) (by omega), target,
      label_count_eq_moore_inner hbin hlen (by omega) (i : Int) h1 h2]
  · intro hedge
    rw [states_with_both hwl, conway_step]
    apply List.map_congr_left
    intro i _
    rw [target, label_count_eq_moore_edge hbin hlen (by omega) hedge (i : Int)]

/-- C1 (amended), on the 6x4 grid with alive cells 10 and 13: the call returns 0
and leaves the grid all dead. -/
theorem update_cells_conway_witness :
    update_cells (mk_grid 24 [10, 13]) (6 * 4) 6 4 = some (false, mk_grid 24 []) ∧
    (∀ i : Nat, i < (mk_grid 24 [10, 13]).length → 1 ≤ (i : Int) % 4 → (i : Int) % 4 + 2 ≤ 4 →
      state_at (mk_grid 24 []) (i : Int) = conway_rule (state_at (mk_grid 24 [10, 13]) (i : Int))
        (moore_count (mk_grid 24 [10, 13]) 6 4 ((i : Int) / 4) ((i : Int) % 4))) ∧
    ((∀ k : Int, state_at (mk_grid 24 [10, 13]) k = 1 → 1 ≤ k % 4 ∧ k % 4 + 2 ≤ 4) →
      states (mk_grid 24 []) = conway_step (mk_grid 24 [10, 13]) 6 4) :=
  ⟨by decide,
    update_cells_conway (mk_grid 24 [10, 13]) (mk_grid 24 []) 6 4 (by decide) (by decide)
      (by decide) (by decide) (by decide) (by decide) (by decide)⟩

/-! ## C2: the return value -/

/-- C2, as the claim states it, fails on the code: on the 3x3 grid whose only
alive cell is the corner cell 0, `update_cells` returns 1. -/
theorem update_cells_returns_counterexample :
    well_labelled (mk_grid 9 [0]) ∧ coherent (mk_grid 9 [0]) ∧ binary (mk_grid 9 [0]) ∧
      (update_cells (mk_grid 9 [0]) 9 3 3).map Prod.fst = some true := by
  decide

/-- C2 (amended): on a `rows x cols` grid with `label = i` in which every alive
cell has an index in `[2 cols + 2, rows cols - 2 cols - 3]`, `update_cells`
returns 0. -/
theorem update_cells_returns (cs : List cell) (rows cols : Int)
    (hcols : 1 ≤ cols) (hlen : (cs.length : Int) = rows * cols) (hwl : well_labelled cs)
    (hin : ∀ i : Nat, i < cs.length → state_at cs (i : Int) = 1 →
      2 * cols + 2 ≤ (i : Int) ∧ (i : Int) ≤ rows * cols - 2 * cols - 3) :
    ∃ out, update_cells cs (rows * cols) rows cols = some (false, out) := by
  rw [← hlen] at hin ⊢
  obtain ⟨b, f1, e1, e2, _⟩ := update_cells_with_new hwl (new_state_at cs) rows cols
  rw [with_new_self hwl] at e1
  have hb : b = false := by
    apply e2.mpr
    intro i hi ha
    exact (deep_in_bounds_iff (by omega)).mpr (hin i hi ha)
  subst hb
  exact ⟨_, e1⟩

/-- C2 (amended), on the 6x4 grid with alive cells 10 and 13. -/
theorem update_cells_returns_witness :
    ∃ out, update_cells (mk_grid 24 [10, 13]) (6 * 4) 6 4 = some (false, out) :=
  update_cells_returns (mk_grid 24 [10, 13]) 6 4 (by decide) (by decide) (by decide) (by decide)

/-! ## C3: the neighbour count -/

/-- C3, as the claim states it, fails on the code: on the 4x3 grid whose only
alive cell is cell 5 (row 1, last column), `get_neighbor_info` for cell 6
(row 2, column 0) yields the sum 1, counting cell 5 through the label
`6 - 1`, while no Moore neighbour of cell 6 on the bounded grid is alive. -/
theorem get_neighbor_info_counterexample :
    (mk_grid 12 [5])[6]? = some ⟨6, ⟨0, 0, 0, 0⟩, 0, 0⟩ ∧
    (get_neighbor_info ⟨6, ⟨0, 0, 0, 0⟩, 0, 0⟩ (mk_grid 12 [5]) 4 3 12).map
        (fun n => (n.out_of_bounds_access, n.sum_neighbor_states)) = some (false, 1) ∧
    moore_count (mk_grid 12 [5]) 4 3 2 0 = 0 := by
  decide

/-- C3 (amended): on a `rows x cols` grid with `label = i` and binary states,
for every cell in a column other than the first and the last for which
`get_neighbor_info` yields a sum (`out_of_bounds_access = 0`), the sum is the
number of alive cells among the Moore positions inside the grid. -/
theorem get_neighbor_info_moore (cs : List cell) (rows cols : Int) (i : Nat) (c : cell)
    (info : neighbor_info)
    (hcols : 1 ≤ cols) (hlen : (cs.length : Int) = rows * cols) (hwl : well_labelled cs)
    (hbin : binary cs) (hc : cs[i]? = some c)
    (h1 : 1 ≤ (i : Int) % cols) (h2 : (i : Int) % cols + 2 ≤ cols)
    (hg : get_neighbor_info c cs rows cols (rows * cols) = some info)
    (ho : info.out_of_bounds_access = false) :
    info.sum_neighbor_states
      = (moore_count cs rows cols ((i : Int) / cols) ((i : Int) % cols) : Int) := by
  have hl := well_labelled_get hwl hc
  rw [← hlen] at hg
  by_cases hin : labels_in_bounds (cs.length : Int) cols (i : Int)
  · obtain ⟨ncs, e1, _⟩ := get_neighbor_info_in hwl (new_state_at cs) (R := rows) hl hin
    rw [with_new_self hwl, hg] at e1
    have e2 := Option.some.inj e1
    rw [e2]
    exact label_count_eq_moore_inner hbin hlen (by omega) (i : Int) h1 h2
  · have e1 := get_neighbor_info_out cs (R := rows) hl hin
    rw [hg] at e1
    have e2 := Option.some.inj e1
    rw [e2] at ho
    cases ho

/-- C3 (amended), on the 6x4 grid with alive cells 10 and 13, for cell 9
(row 2, column 1): the sum is 2. -/
theorem get_neighbor_info_moore_witness :
    (2 : Int) = (moore_count (mk_grid 24 [10, 13]) 6 4 ((9 : Nat) / 4) ((9 : Nat) % 4) : Int) :=
  get_neighbor_info_moore (mk_grid 24 [10, 13]) 6 4 9 ⟨9, ⟨0, 0, 0, 0⟩, 0, 0⟩
    ⟨[⟨8, ⟨0, 0, 0, 0⟩, 0, 0⟩, ⟨10, ⟨0, 0, 0, 0⟩, 1, 1⟩, ⟨13, ⟨0, 0, 0, 0⟩, 1, 1⟩,
      ⟨12, ⟨0, 0, 0, 0⟩, 0, 0⟩, ⟨14, ⟨0, 0, 0, 0⟩, 0, 0⟩, ⟨5, ⟨0, 0, 0, 0⟩, 0, 0⟩,
      ⟨4, ⟨0, 0, 0, 0⟩, 0, 0⟩, ⟨6, ⟨0, 0, 0, 0⟩, 0, 0⟩], 2, false⟩
    (by decide) (by decide) (by decide) (by decide) (by decide) (by decide) (by decide)
    (by decide) (by decide)

/-! ## C6: the empty grid -/

theorem update_loop_all_dead (R C N : Int) (cur : List cell) (hdead : ∀ c ∈ cur, c.state = 0) :
    ∀ is : List Nat, (∀ i ∈ is, i < cur.length) →
      update_loop R C N is cur = some (false, cur) := by
  intro is
  induction is with
  | nil => intro _; rfl
  | cons i rest ih =>
    intro hb
    have hi := hb i (List.mem_cons_self _ _)
    have hc : cur[i]? = some cur[i] := List.getElem?_eq_getElem hi
    have hd : ¬ (cur[i]).state = 1 := by
      rw [hdead _ (List.getElem_mem hi)]
      decide
    rw [update_loop_dead hc hd]
    exact ih (fun x hx => hb x (List.mem_cons_of_mem _ hx))

/-- C6: on a `rows x cols` grid in which every cell has `state = new_state = 0`,
`update_cells` returns 0 and leaves the array as it is, every cell with
`state = new_state = 0`. -/
theorem update_cells_all_dead (cs : List cell) (rows cols : Int)
    (hlen : (cs.length : Int) = rows * cols)
    (hdead : ∀ c ∈ cs, c.state = 0 ∧ c.new_state = 0) :
    update_cells cs (rows * cols) rows cols = some (false, cs) ∧
      ∀ c ∈ cs, c.state = 0 ∧ c.new_state = 0 := by
  refine ⟨?_, hdead⟩
  rw [← hlen]
  unfold update_cells
  have hn : ((cs.length : Int)).toNat = cs.length := by omega
  rw [hn, update_loop_all_dead rows cols _ cs (fun c hc => (hdead c hc).1) _
    (fun i hi => List.mem_range.mp hi)]
  simp only [for_cells_range]
  have hmap : cs.map refresh = cs := by
    conv => rhs; rw [← List.map_id cs]
    apply List.map_congr_left
    intro c hc
    have h := hdead c hc
    cases c with
    | mk l r st ns =>
      simp only at h
      simp [refresh, h.1, h.2]
  rw [hmap]

/-- C6, on the all-dead 2x3 grid. -/
theorem update_cells_all_dead_witness :
    update_cells (mk_grid 6 []) (2 * 3) 2 3 = some (false, mk_grid 6 []) ∧
      ∀ c ∈ mk_grid 6 [], c.state = 0 ∧ c.new_state = 0 :=
  update_cells_all_dead (mk_grid 6 []) 2 3 (by decide) (by decide)

/-! ## C9: the editor's toggle -/

/-- C9: for a cell with `state` and `new_state` in {0,1}, one toggle changes both
fields, two toggles restore the cell, and two passes of the editor loop body
with the same pointer and button input restore the cell as well. -/
theorem toggle_cell_involution (c : cell) (hs : c.state = 0 ∨ c.state = 1)
    (hn : c.new_state = 0 ∨ c.new_state = 1) :
    toggle_cell (toggle_cell c) = c ∧
    (toggle_cell c).state ≠ c.state ∧ (toggle_cell c).new_state ≠ c.new_state ∧
    ∀ (CheckCollisionPointRec : Vector2 → Rectangle → Bool) (p : Vector2) (pressed : Bool),
      edit_cell CheckCollisionPointRec p pressed (edit_cell CheckCollisionPointRec p pressed c)
        = c := by
  have h2 : toggle_cell (toggle_cell c) = c := by
    cases c with
    | mk l r st ns =>
      simp only at hs hn
      rcases hs with rfl | rfl <;> rcases hn with rfl | rfl <;> simp [toggle_cell, lnot]
  refine ⟨h2, ?_, ?_, ?_⟩
  · rcases hs with h | h <;> simp [toggle_cell, lnot, h]
  · rcases hn with h | h <;> simp [toggle_cell, lnot, h]
  · intro H p pressed
    unfold edit_cell
    by_cases hh : (H p c.rect_dim && pressed) = true
    · have hr : (toggle_cell c).rect_dim = c.rect_dim := rfl
      simp only [hh, if_true, hr, h2]
    · simp only [hh, Bool.false_eq_true, if_false]

/-- C9, on an alive cell. -/
theorem toggle_cell_involution_witness :
    toggle_cell (toggle_cell ⟨5, ⟨0, 0, 20, 20⟩, 1, 1⟩) = ⟨5, ⟨0, 0, 20, 20⟩, 1, 1⟩ ∧
    (toggle_cell ⟨5, ⟨0, 0, 20, 20⟩, 1, 1⟩).state ≠ 1 ∧
    (toggle_cell ⟨5, ⟨0, 0, 20, 20⟩, 1, 1⟩).new_state ≠ 1 ∧
    ∀ (CheckCollisionPointRec : Vector2 → Rectangle → Bool) (p : Vector2) (pressed : Bool),
      edit_cell CheckCollisionPointRec p pressed
          (edit_cell CheckCollisionPointRec p pressed ⟨5, ⟨0, 0, 20, 20⟩, 1, 1⟩)
        = ⟨5, ⟨0, 0, 20, 20⟩, 1, 1⟩ :=
  toggle_cell_involution ⟨5, ⟨0, 0, 20, 20⟩, 1, 1⟩ (by decide) (by decide)

/-! ## C8: coherence at rest -/

theorem set_new_state_length {cur out : List cell} {k v : Int}
    (h : set_new_state cur k v = some out) : out.length = cur.length := by
  unfold set_new_state at h
  split at h
  · cases h
  · have := Option.some.inj h
    rw [← this, List.length_set]

theorem update_neighbors_length (R C N : Int) :
    ∀ (ncs cur : List cell) (b : Bool) (out : List cell),
      update_neighbors R C N ncs cur = some (b, out) → out.length = cur.length := by
  intro ncs
  induction ncs with
  | nil =>
    intro cur b out h
    simp only [update_neighbors, Option.some.injEq, Prod.mk.injEq] at h
    rw [← h.2]
  | cons n rest ih =>
    intro cur b out h
    rw [update_neighbors] at h
    split at h
    · cases h
    · split at h
      · cases h
      · split at h
        · simp only [Option.some.injEq, Prod.mk.injEq] at h
          rw [← h.2]
        · split at h
          · split at h
            · cases h
            · rename_i cur1 hset
              rw [ih _ _ _ h, set_new_state_length hset]
          · exact ih _ _ _ h

theorem update_loop_length (R C N : Int) :
    ∀ (is : List Nat) (cur : List cell) (b : Bool) (out : List cell),
      update_loop R C N is cur = some (b, out) → out.length = cur.length := by
  intro is
  induction is with
  | nil =>
    intro cur b out h
    simp only [update_loop, Option.some.injEq, Prod.mk.injEq] at h
    rw [← h.2]
  | cons i rest ih =>
    intro cur b out h
    rw [update_loop] at h
    split at h
    · cases h
    · split at h
      · split at h
        · cases h
        · split at h
          · simp only [Option.some.injEq, Prod.mk.injEq] at h
            rw [← h.2]
          · split at h <;> dsimp only at h <;> split at h
            all_goals first
              | exact Option.noConfusion h
              | (rename_i cur2 hn
                 simp only [Option.some.injEq, Prod.mk.injEq] at h
                 rw [← h.2, update_neighbors_length _ _ _ _ _ _ _ hn]
                 try simp)
              | (rename_i cur2 hn
                 rw [ih _ _ _ h, update_neighbors_length _ _ _ _ _ _ _ hn]
                 try simp)
      · exact ih _ _ _ h

theorem coherent_map {cs : List cell} {f : cell → cell}
    (h : ∀ c ∈ cs, (f c).new_state = (f c).state) : coherent (cs.map f) := by
  unfold coherent new_states states
  rw [List.map_map, List.map_map]
  apply List.map_congr_left
  intro c hc
  exact h c hc

theorem coherent_mem {cs : List cell} (h : coherent cs) {c : cell} (hc : c ∈ cs) :
    c.new_state = c.state := by
  obtain ⟨i, hi⟩ := List.mem_iff_getElem?.mp hc
  exact coherent_get h hi

/-- C8, as the claim states it, fails on the code: on the coherent 3x3 grid
whose only alive cell is the centre, `update_cells` returns 1 after it has
written `new_state = 0` to the centre, whose `state` is still 1. -/
theorem coherence_counterexample :
    coherent (mk_grid 9 [4]) ∧
      (update_cells (mk_grid 9 [4]) 9 3 3).map (fun p => (p.1, states p.2, new_states p.2))
        = some (true, [0, 0, 0, 0, 1, 0, 0, 0, 0], [0, 0, 0, 0, 0, 0, 0, 0, 0]) := by
  decide

/-- C8 (amended): if `state = new_state` holds for every cell of an array of
`num_cells` cells, it holds for every cell after the editor loop of a frame
(whatever the pointer hits), after the reset loop, and after a call of
`update_cells` that returns 0. -/
theorem coherence_preserved (cs : List cell) (N R C : Int)
    (hlen : (cs.length : Int) = N) (hco : coherent cs) :
    (∀ (CheckCollisionPointRec : Vector2 → Rectangle → Bool) (p : Vector2) (pressed : Bool),
      ∃ out, for_cells (edit_cell CheckCollisionPointRec p pressed) (List.range N.toNat) cs
          = some out ∧ coherent out) ∧
    (∃ out, for_cells reset_cell (List.range N.toNat) cs = some out ∧ coherent out) ∧
    (∀ out, update_cells cs N R C = some (false, out) → coherent out) := by
  have hn : N.toNat = cs.length := by omega
  refine ⟨?_, ?_, ?_⟩
  · intro H p pressed
    refine ⟨_, by rw [hn]; exact for_cells_range _ cs, ?_⟩
    apply coherent_map
    intro c hc
    have h := coherent_mem hco hc
    unfold edit_cell
    split
    · simp [toggle_cell, h]
    · exact h
  · refine ⟨_, by rw [hn]; exact for_cells_range _ cs, ?_⟩
    apply coherent_map
    intro c _
    rfl
  · intro out h
    unfold update_cells at h
    split at h
    · cases h
    · cases h
    · rename_i cur1 hloop
      split at h
      · cases h
      · rename_i out1 hfor
        have hl := update_loop_length _ _ _ _ _ _ _ hloop
        rw [hn, ← hl, for_cells_range] at hfor
        have e1 := Option.some.inj hfor
        simp only [Option.some.injEq, Prod.mk.injEq, true_and] at h
        rw [← h, ← e1]
        apply coherent_map
        intro c _
        rfl

/-- C8 (amended), on the 6x4 grid with alive cells 10 and 13. -/
theorem coherence_preserved_witness :
    (∀ (CheckCollisionPointRec : Vector2 → Rectangle → Bool) (p : Vector2) (pressed : Bool),
      ∃ out, for_cells (edit_cell CheckCollisionPointRec p pressed) (List.range (24 : Int).toNat)
          (mk_grid 24 [10, 13]) = some out ∧ coherent out) ∧
    (∃ out, for_cells reset_cell (List.range (24 : Int).toNat) (mk_grid 24 [10, 13]) = some out ∧
      coherent out) ∧
    (∀ out, update_cells (mk_grid 24 [10, 13]) 24 6 4 = some (false, out) → coherent out) :=
  coherence_preserved (mk_grid 24 [10, 13]) 24 6 4 (by decide) (by decide)

/-! ## C10: reset -/

theorem frame_paused (H : Vector2 → Rectangle → Bool) (R C : Int) (inp : Input) (g : Game)
    (hp : (frame_keys inp g).pause = true) :
    frame H R C inp g
      = frame_reset R C
          { frame_keys inp g with frames_counter := (frame_keys inp g).frames_counter + 1 } := by
  unfold frame frame_step
  simp only [hp, Bool.not_true, Bool.false_eq_true, if_false]

theorem frame_reset_off (R C : Int) (g : Game) (h : g.reset = false) :
    frame_reset R C g = some g := by
  unfold frame_reset
  rw [h]
  rfl

theorem frame_reset_on (R C : Int) (g : Game) (h : g.reset = true)
    (hlen : (g.cells.length : Int) = C * R) :
    frame_reset R C g
      = some { g with cells := g.cells.map reset_cell, reset := false, start := false } := by
  unfold frame_reset
  have hn : (C * R).toNat = g.cells.length := by omega
  rw [h]
  simp only [if_true, hn, for_cells_range]

theorem frame_paused_reset (H : Vector2 → Rectangle → Bool) (R C : Int) (inp : Input)
    (g : Game) (hp : (frame_keys inp g).pause = true) (hr : (frame_keys inp g).reset = true)
    (hlen : (g.cells.length : Int) = C * R) :
    ∃ g1, frame H R C inp g = some g1 ∧ g1.cells = g.cells.map reset_cell ∧
      g1.start = false ∧ g1.reset = false ∧ g1.pause = true := by
  have e1 := (frame_paused H R C inp g hp).trans (frame_reset_on R C _ hr hlen)
  exact ⟨_, e1, rfl, rfl, rfl, hp⟩

theorem frame_paused_idle (H : Vector2 → Rectangle → Bool) (R C : Int) (inp : Input)
    (g : Game) (hp : (frame_keys inp g).pause = true) (hr : (frame_keys inp g).reset = false) :
    ∃ g1, frame H R C inp g = some g1 ∧ g1.cells = g.cells ∧ g1.pause = true := by
  have e1 := (frame_paused H R C inp g hp).trans (frame_reset_off R C _ hr)
  exact ⟨_, e1, rfl, hp⟩

/-- C10, the behaviour of the code where the claim fails: from a paused
controller (`pause = 1`), a frame in which R is pressed and SPACE is not ends
with every cell dead and `start` and `reset` cleared, but with `pause` still
set; and the following frame, when SPACE is not pressed in it, leaves every
cell as it is, also under a left-button press on a cell. -/
theorem frame_reset_while_paused (CheckCollisionPointRec : Vector2 → Rectangle → Bool)
    (R C : Int) (inp1 inp2 : Input) (g : Game)
    (hlen : (g.cells.length : Int) = C * R) (hp : g.pause = true)
    (hr1 : inp1.KEY_R = true) (hs1 : inp1.KEY_SPACE = false)
    (hr2 : inp2.KEY_R = false) (hs2 : inp2.KEY_SPACE = false) :
    ∃ g1 g2, frame CheckCollisionPointRec R C inp1 g = some g1 ∧
      (∀ c ∈ g1.cells, c.state = 0 ∧ c.new_state = 0) ∧
      g1.start = false ∧ g1.reset = false ∧ g1.pause = true ∧
      frame CheckCollisionPointRec R C inp2 g1 = some g2 ∧ g2.cells = g1.cells := by
  obtain ⟨g1, e1, hc1, hst1, hre1, hpa1⟩ :=
    frame_paused_reset CheckCollisionPointRec R C inp1 g (by simp [frame_keys, hs1, hp])
      (by simp [frame_keys, hr1]) hlen
  obtain ⟨g2, e2, hc2, _⟩ :=
    frame_paused_idle CheckCollisionPointRec R C inp2 g1 (by simp [frame_keys, hs2, hpa1])
      (by simp [frame_keys, hr2, hre1])
  refine ⟨g1, g2, e1, ?_, hst1, hre1, hpa1, e2, hc2⟩
  intro c hc
  rw [hc1, List.mem_map] at hc
  obtain ⟨d, _, rfl⟩ := hc
  exact ⟨rfl, rfl⟩

/-- C10, in the grid of `main`: paused after a start, R is pressed, and in the
next frame the left button is pressed. -/
theorem frame_reset_while_paused_witness :
    ∃ g1 g2,
      frame (fun _ _ => true) num_rows num_columns
          ⟨false, true, false, false, false, false, ⟨0, 0⟩, 40⟩
          ⟨true, true, false, false, 0, 40, ⟨0, 0⟩, main_cells⟩ = some g1 ∧
      (∀ c ∈ g1.cells, c.state = 0 ∧ c.new_state = 0) ∧
      g1.start = false ∧ g1.reset = false ∧ g1.pause = true ∧
      frame (fun _ _ => true) num_rows num_columns
          ⟨false, false, false, false, false, true, ⟨30, 30⟩, 40⟩ g1 = some g2 ∧
      g2.cells = g1.cells :=
  frame_reset_while_paused (fun _ _ => true) num_rows num_columns
    ⟨false, true, false, false, false, false, ⟨0, 0⟩, 40⟩
    ⟨false, false, false, false, false, true, ⟨30, 30⟩, 40⟩
    ⟨true, true, false, false, 0, 40, ⟨0, 0⟩, main_cells⟩
    (by simp [main_cells, num_cells]; decide) rfl rfl rfl rfl rfl

/-! ## C7: the successor does not depend on the rectangles -/

theorem cell_at_erase (cs : List cell) (k : Int) :
    cell_at (cs.map erase_rect) k = (cell_at cs k).map erase_rect := by
  unfold cell_at
  split
  · rfl
  · rw [List.getElem?_map]

theorem copy_cells_erase (cs : List cell) :
    ∀ ls : List Int, copy_cells (cs.map erase_rect) ls
      = (copy_cells cs ls).map (List.map erase_rect) := by
  intro ls
  induction ls with
  | nil => rfl
  | cons l rest ih =>
    simp only [copy_cells, cell_at_erase, ih]
    cases cell_at cs l with
    | none => rfl
    | some c =>
      cases copy_cells cs rest with
      | none => rfl
      | some ncs => rfl

theorem states_erase (cs : List cell) :
    (cs.map erase_rect).map cell.state = cs.map cell.state := by
  rw [List.map_map]
  rfl

theorem get_neighbor_info_erase (c : cell) (cs : List cell) (R C N : Int) :
    get_neighbor_info (erase_rect c) (cs.map erase_rect) R C N
      = (get_neighbor_info c cs R C N).map erase_info := by
  unfold get_neighbor_info
  have hl : (erase_rect c).label = c.label := rfl
  simp only [hl, copy_cells_erase]
  split
  · rfl
  · cases copy_cells cs (neighbor_labels c.label C) with
    | none => rfl
    | some ncs =>
      simp only [Option.map_some', states_erase]
      rfl

theorem set_new_state_erase (cs : List cell) (k v : Int) :
    set_new_state (cs.map erase_rect) k v = (set_new_state cs k v).map (List.map erase_rect) := by
  unfold set_new_state
  rw [cell_at_erase]
  cases cell_at cs k with
  | none => rfl
  | some c =>
    simp only [Option.map_some', List.map_set]
    rfl

theorem update_neighbors_erase (R C N : Int) :
    ∀ ncs cs : List cell, update_neighbors R C N (ncs.map erase_rect) (cs.map erase_rect)
      = (update_neighbors R C N ncs cs).map erase_result := by
  intro ncs
  induction ncs with
  | nil => intro cs; rfl
  | cons n rest ih =>
    intro cs
    have hl : (erase_rect n).label = n.label := rfl
    simp only [List.map_cons, update_neighbors, hl, cell_at_erase]
    cases cell_at cs n.label with
    | none => rfl
    | some c =>
      simp only [Option.map_some', get_neighbor_info_erase]
      cases get_neighbor_info c cs R C N with
      | none => rfl
      | some info =>
        have h1 : (erase_info info).out_of_bounds_access = info.out_of_bounds_access := rfl
        have h2 : (erase_info info).sum_neighbor_states = info.sum_neighbor_states := rfl
        simp only [Option.map_some', h1, h2, set_new_state_erase]
        split
        · rfl
        · split
          · cases set_new_state cs n.label 1 with
            | none => rfl
            | some cs1 => exact ih cs1
          · exact ih cs

theorem update_loop_none {R C N : Int} {i : Nat} {rest : List Nat} {cur : List cell}
    (h : cur[i]? = none) : update_loop R C N (i :: rest) cur = none := by
  rw [update_loop]
  simp only [h]

theorem update_loop_fault {R C N : Int} {i : Nat} {rest : List Nat} {cur : List cell}
    {ci : cell} (h : cur[i]? = some ci) (ha : ci.state = 1)
    (hg : get_neighbor_info ci cur R C N = none) :
    update_loop R C N (i :: rest) cur = none := by
  rw [update_loop]
  simp only [h]
  rw [if_pos ha]
  simp only [hg]

theorem update_loop_flagged {R C N : Int} {i : Nat} {rest : List Nat} {cur : List cell}
    {ci : cell} {info : neighbor_info} (h : cur[i]? = some ci) (ha : ci.state = 1)
    (hg : get_neighbor_info ci cur R C N = some info)
    (ho : info.out_of_bounds_access = true) :
    update_loop R C N (i :: rest) cur = some (true, cur) := by
  rw [update_loop]
  simp only [h]
  rw [if_pos ha]
  simp only [hg, ho, if_true]

theorem update_loop_scan {R C N : Int} {i : Nat} {rest : List Nat} {cur cur1 : List cell}
    {ci : cell} {info : neighbor_info} (h : cur[i]? = some ci) (ha : ci.state = 1)
    (hg : get_neighbor_info ci cur R C N = some info)
    (ho : info.out_of_bounds_access = false)
    (h1 : (if info.sum_neighbor_states < 2 ∨ info.sum_neighbor_states > 3
      then cur.set i { ci with new_state := 0 } else cur) = cur1) :
    update_loop R C N (i :: rest) cur
      = match update_neighbors R C N info.neighbor_cells cur1 with
        | none => none
        | some (true, cur2) => some (true, cur2)
        | some (false, cur2) => update_loop R C N rest cur2 := by
  rw [update_loop]
  simp only [h]
  rw [if_pos ha]
  simp only [hg, ho, Bool.false_eq_true, if_false]
  rw [h1]

theorem update_loop_erase (R C N : Int) :
    ∀ (is : List Nat) (cs : List cell), update_loop R C N is (cs.map erase_rect)
      = (update_loop R C N is cs).map erase_result := by
  intro is
  induction is with
  | nil => intro cs; rfl
  | cons i rest ih =>
    intro cs
    cases h0 : cs[i]? with
    | none =>
      have h0e : (cs.map erase_rect)[i]? = none := by rw [List.getElem?_map, h0]; rfl
      rw [update_loop_none h0, update_loop_none h0e]
      rfl
    | some ci =>
      have h0e : (cs.map erase_rect)[i]? = some (erase_rect ci) := by
        rw [List.getElem?_map, h0]; rfl
      by_cases ha : ci.state = 1
      · have hae : (erase_rect ci).state = 1 := ha
        have hge := get_neighbor_info_erase ci cs R C N
        cases hg : get_neighbor_info ci cs R C N with
        | none =>
          rw [hg] at hge
          rw [update_loop_fault h0 ha hg, update_loop_fault h0e hae hge]
          rfl
        | some info =>
          rw [hg] at hge
          cases ho : info.out_of_bounds_access with
          | true =>
            rw [update_loop_flagged h0 ha hg ho, update_loop_flagged h0e hae hge ho]
            rfl
          | false =>
            have h4 : (if (erase_info info).sum_neighbor_states < 2 ∨
                  (erase_info info).sum_neighbor_states > 3
                then (cs.map erase_rect).set i { erase_rect ci with new_state := 0 }
                else cs.map erase_rect)
                = (if info.sum_neighbor_states < 2 ∨ info.sum_neighbor_states > 3
                    then cs.set i { ci with new_state := 0 } else cs).map erase_rect := by
              have h5 : (erase_info info).sum_neighbor_states = info.sum_neighbor_states := rfl
              rw [h5]
              split
              · rw [List.map_set]; rfl
              · rfl
            rw [update_loop_scan h0 ha hg ho rfl, update_loop_scan h0e hae hge ho h4]
            have h6 : (erase_info info).neighbor_cells = info.neighbor_cells.map erase_rect := rfl
            rw [h6, update_neighbors_erase]
            cases update_neighbors R C N info.neighbor_cells
                (if info.sum_neighbor_states < 2 ∨ info.sum_neighbor_states > 3
                  then cs.set i { ci with new_state := 0 } else cs) with
            | none => rfl
            | some p =>
              rcases p with ⟨b, cs2⟩
              cases b with
              | true => rfl
              | false => exact ih cs2
      · have hae : ¬ (erase_rect ci).state = 1 := ha
        rw [update_loop_dead h0 ha, update_loop_dead h0e hae]
        exact ih cs

theorem for_cells_refresh_erase :
    ∀ (is : List Nat) (cs : List cell), for_cells refresh is (cs.map erase_rect)
      = (for_cells refresh is cs).map (List.map erase_rect) := by
  intro is
  induction is with
  | nil => intro cs; rfl
  | cons i rest ih =>
    intro cs
    simp only [for_cells, List.getElem?_map]
    cases cs[i]? with
    | none => rfl
    | some c =>
      have h : (cs.map erase_rect).set i (refresh (erase_rect c))
          = (cs.set i (refresh c)).map erase_rect := by
        rw [List.map_set]
        rfl
      simp only [Option.map_some', h]
      exact ih _

theorem update_cells_erase (cs : List cell) (N R C : Int) :
    update_cells (cs.map erase_rect) N R C = (update_cells cs N R C).map erase_result := by
  unfold update_cells
  rw [update_loop_erase]
  cases update_loop R C N (List.range N.toNat) cs with
  | none => rfl
  | some p =>
    rcases p with ⟨b, cs1⟩
    cases b with
    | true => rfl
    | false =>
      simp only [Option.map_some', erase_result, for_cells_refresh_erase]
      cases for_cells refresh (List.range N.toNat) cs1 with
      | none => rfl
      | some cs2 => rfl

theorem erase_eq_of_fields {cs1 cs2 : List cell} (hl : labels cs1 = labels cs2)
    (hs : states cs1 = states cs2) (hn : new_states cs1 = new_states cs2) :
    cs1.map erase_rect = cs2.map erase_rect := by
  apply List.ext_getElem?
  intro i
  have e1 := congrArg (fun l => l[i]?) hl
  have e2 := congrArg (fun l => l[i]?) hs
  have e3 := congrArg (fun l => l[i]?) hn
  simp only [labels, states, new_states, List.getElem?_map] at e1 e2 e3
  rw [List.getElem?_map, List.getElem?_map]
  cases h1 : cs1[i]? with
  | none =>
    rw [h1] at e1
    cases h2 : cs2[i]? with
    | none => rfl
    | some d => rw [h2] at e1; cases e1
  | some c =>
    rw [h1] at e1 e2 e3
    cases h2 : cs2[i]? with
    | none => rw [h2] at e1; cases e1
    | some d =>
      rw [h2] at e1 e2 e3
      simp only [Option.map_some', Option.some.injEq] at e1 e2 e3 ⊢
      cases c; cases d
      simp only [erase_rect] at e1 e2 e3 ⊢
      simp [e1, e2, e3]

theorem fields_erase_result (p : Bool × List cell) :
    ((erase_result p).1, states (erase_result p).2, new_states (erase_result p).2)
      = (p.1, states p.2, new_states p.2) := by
  simp only [erase_result, states, new_states, List.map_map]
  rfl

/-- C7, as the claim states it, fails on the code: two 2x2 arrays with the same,
all-dead state array, one of them with `new_state = 1` left in cell 0, have
different successor state arrays, because `update_cells` writes `new_state`
only for the cells it visits and copies every `new_state` into `state`. -/
theorem update_cells_deterministic_counterexample :
    states (mk_grid 4 []) = states [⟨0, ⟨0, 0, 0, 0⟩, 0, 1⟩, ⟨1, ⟨0, 0, 0, 0⟩, 0, 0⟩,
      ⟨2, ⟨0, 0, 0, 0⟩, 0, 0⟩, ⟨3, ⟨0, 0, 0, 0⟩, 0, 0⟩] ∧
    (update_cells (mk_grid 4 []) 4 2 2).map (fun p => (p.1, states p.2))
      = some (false, [0, 0, 0, 0]) ∧
    (update_cells [⟨0, ⟨0, 0, 0, 0⟩, 0, 1⟩, ⟨1, ⟨0, 0, 0, 0⟩, 0, 0⟩,
      ⟨2, ⟨0, 0, 0, 0⟩, 0, 0⟩, ⟨3, ⟨0, 0, 0, 0⟩, 0, 0⟩] 4 2 2).map (fun p => (p.1, states p.2))
      = some (false, [1, 0, 0, 0]) := by
  decide

/-- C7 (amended): two cell arrays with the same labels, the same state array
and the same `new_state` array, whatever their pixel rectangles, get the same
return value and the same successor `state` and `new_state` arrays from
`update_cells`. -/
theorem update_cells_deterministic (cs1 cs2 : List cell) (N R C : Int)
    (hl : labels cs1 = labels cs2) (hs : states cs1 = states cs2)
    (hn : new_states cs1 = new_states cs2) :
    (update_cells cs1 N R C).map (fun p => (p.1, states p.2, new_states p.2))
      = (update_cells cs2 N R C).map (fun p => (p.1, states p.2, new_states p.2)) := by
  have key : ∀ cs : List cell,
      (update_cells (cs.map erase_rect) N R C).map (fun p => (p.1, states p.2, new_states p.2))
        = (update_cells cs N R C).map (fun p => (p.1, states p.2, new_states p.2)) := by
    intro cs
    rw [update_cells_erase]
    cases update_cells cs N R C with
    | none => rfl
    | some p => exact congrArg some (fields_erase_result p)
  rw [← key cs1, ← key cs2, erase_eq_of_fields hl hs hn]

/-- C7 (amended), on the 6x4 grid with alive cells 10 and 13, once with zero
rectangles and once with every rectangle set to a square of side 20. -/
theorem update_cells_deterministic_witness :
    (update_cells (mk_grid 24 [10, 13]) 24 6 4).map (fun p => (p.1, states p.2, new_states p.2))
      = (update_cells ((mk_grid 24 [10, 13]).map fun c => { c with rect_dim := ⟨20, 20, 20, 20⟩ })
          24 6 4).map (fun p => (p.1, states p.2, new_states p.2)) :=
  update_cells_deterministic (mk_grid 24 [10, 13])
    ((mk_grid 24 [10, 13]).map fun c => { c with rect_dim := ⟨20, 20, 20, 20⟩ }) 24 6 4
    (by decide) (by decide) (by decide)

/-! ## Patterns on the bounded grid -/

theorem block_rule (r c a y : Int) :
    conway_rule (if block r c a y = true then 1 else 0) (count8 (block r c) a y)
      = if block r c a y = true then 1 else 0 := by
  simp only [count8, moore_offsets, List.countP_cons, List.countP_nil, block, decide_eq_true_eq]
  have hu : a ≤ r - 2 ∨ a = r - 1 ∨ a = r ∨ a = r + 1 ∨ a = r + 2 ∨ r + 3 ≤ a := by omega
  have hv : y ≤ c - 2 ∨ y = c - 1 ∨ y = c ∨ y = c + 1 ∨ y = c + 2 ∨ c + 3 ≤ y := by omega
  rcases hu with hu | hu | hu | hu | hu | hu <;> rcases hv with hv | hv | hv | hv | hv | hv
  all_goals
    repeat' (first | omega | (split <;> first | omega | (rename_i hh; clear hh)))
  all_goals decide

set_option maxHeartbeats 2000000 in
theorem blinker_h_rule (r c a y : Int) :
    conway_rule (if blinker_h r c a y = true then 1 else 0) (count8 (blinker_h r c) a y)
      = if blinker_v r c a y = true then 1 else 0 := by
  simp only [count8, moore_offsets, List.countP_cons, List.countP_nil, blinker_h, blinker_v,
    decide_eq_true_eq]
  have hu : a ≤ r - 2 ∨ a = r - 1 ∨ a = r ∨ a = r + 1 ∨ r + 2 ≤ a := by omega
  have hv : y ≤ c - 3 ∨ y = c - 2 ∨ y = c - 1 ∨ y = c ∨ y = c + 1 ∨ y = c + 2 ∨ c + 3 ≤ y := by
    omega
  rcases hu with hu | hu | hu | hu | hu <;> rcases hv with hv | hv | hv | hv | hv | hv | hv
  all_goals
    repeat' (first | omega | (split <;> first | omega | (rename_i hh; clear hh)))
  all_goals decide

set_option maxHeartbeats 2000000 in
theorem blinker_v_rule (r c a y : Int) :
    conway_rule (if blinker_v r c a y = true then 1 else 0) (count8 (blinker_v r c) a y)
      = if blinker_h r c a y = true then 1 else 0 := by
  simp only [count8, moore_offsets, List.countP_cons, List.countP_nil, blinker_h, blinker_v,
    decide_eq_true_eq]
  have hu : a ≤ r - 3 ∨ a = r - 2 ∨ a = r - 1 ∨ a = r ∨ a = r + 1 ∨ a = r + 2 ∨ r + 3 ≤ a := by
    omega
  have hv : y ≤ c - 2 ∨ y = c - 1 ∨ y = c ∨ y = c + 1 ∨ c + 2 ≤ y := by omega
  rcases hu with hu | hu | hu | hu | hu | hu | hu <;> rcases hv with hv | hv | hv | hv | hv
  all_goals
    repeat' (first | omega | (split <;> first | omega | (rename_i hh; clear hh)))
  all_goals decide

theorem grid_div_mod {C x y : Int} (hy0 : 0 ≤ y) (hy1 : y < C) :
    (x * C + y) / C = x ∧ (x * C + y) % C = y := by
  have hC : C ≠ 0 := by omega
  constructor
  · rw [Int.add_comm, Int.add_mul_ediv_right _ _ hC, Int.ediv_eq_zero_of_lt hy0 hy1]
    omega
  · rw [Int.add_comm, Int.add_mul_emod_self, Int.emod_eq_of_lt hy0 hy1]

theorem state_at_pattern {cs : List cell} {C : Int} {P : Int → Int → Bool}
    (hpat : is_pattern cs C P) {k : Int} (h0 : 0 ≤ k) (h1 : k < (cs.length : Int)) :
    state_at cs k = if P (k / C) (k % C) = true then 1 else 0 := by
  have := hpat k.toNat (by omega)
  have hk : ((k.toNat : Nat) : Int) = k := by omega
  rw [hk] at this
  exact this

theorem binary_of_pattern {cs : List cell} {C : Int} {P : Int → Int → Bool}
    (hpat : is_pattern cs C P) : binary cs := by
  intro c hc
  obtain ⟨i, hi⟩ := List.mem_iff_getElem?.mp hc
  have hlt : i < cs.length := by
    rcases List.getElem?_eq_some.mp hi with ⟨h, _⟩
    exact h
  have h := hpat i hlt
  have hs : state_at cs (i : Int) = c.state := by simp [state_at, cell_at_nat, hi]
  rw [hs] at h
  rw [h]
  split <;> simp

theorem alive_at_pattern {cs : List cell} {rows C : Int} {P : Int → Int → Bool}
    (hlen : (cs.length : Int) = rows * C) (hC : 0 < C) (hpat : is_pattern cs C P)
    (hin : ∀ x y, P x y = true → 0 ≤ x ∧ x < rows ∧ 0 ≤ y ∧ y < C) (x y : Int) :
    alive_at cs rows C x y = P x y := by
  unfold alive_at
  by_cases hg : 0 ≤ x ∧ x < rows ∧ 0 ≤ y ∧ y < C
  · have hb := (index_in_grid rows (a := x) hC hg.2.2.1 hg.2.2.2).mpr ⟨hg.1, hg.2.1⟩
    have hs := state_at_pattern hpat hb.1 (by omega)
    obtain ⟨e1, e2⟩ := grid_div_mod (C := C) (x := x) hg.2.2.1 hg.2.2.2
    rw [e1, e2] at hs
    rw [hs]
    cases P x y <;> simp [hg]
  · have hp : P x y = false := by
      cases h : P x y
      · rfl
      · exact absurd (hin x y h) hg
    rw [hp]
    simp [hg]

theorem moore_count_pattern {cs : List cell} {rows C : Int} {P : Int → Int → Bool}
    (hlen : (cs.length : Int) = rows * C) (hC : 0 < C) (hpat : is_pattern cs C P)
    (hin : ∀ x y, P x y = true → 0 ≤ x ∧ x < rows ∧ 0 ≤ y ∧ y < C) (a c : Int) :
    moore_count cs rows C a c = count8 P a c := by
  unfold moore_count count8
  congr 1
  funext d
  exact alive_at_pattern hlen hC hpat hin _ _

/-- On a grid whose alive cells are the cells of a pattern `P` that lies in
the grid and off its first and last column, the value the first loop of
`update_cells` computes for a cell is Conway's rule on the pattern. -/
theorem target_pattern {cs : List cell} {rows C : Int} {P : Int → Int → Bool}
    (hlen : (cs.length : Int) = rows * C) (hC : 0 < C) (hpat : is_pattern cs C P)
    (hin : ∀ x y, P x y = true → 0 ≤ x ∧ x < rows ∧ 1 ≤ y ∧ y + 2 ≤ C)
    {k : Int} (h0 : 0 ≤ k) (h1 : k < (cs.length : Int)) :
    target cs C k = conway_rule (if P (k / C) (k % C) = true then 1 else 0)
      (count8 P (k / C) (k % C)) := by
  have hin2 : ∀ x y, P x y = true → 0 ≤ x ∧ x < rows ∧ 0 ≤ y ∧ y < C := by
    intro x y h
    have := hin x y h
    omega
  have hedge : ∀ m : Int, state_at cs m = 1 → 1 ≤ m % C ∧ m % C + 2 ≤ C := by
    intro m hm
    have hb := state_at_alive_bounds hm
    have hs := state_at_pattern hpat hb.1 hb.2
    rw [hm] at hs
    have hp : P (m / C) (m % C) = true := by
      cases h : P (m / C) (m % C)
      · rw [h] at hs; simp at hs
      · rfl
    have := hin _ _ hp
    omega
  unfold target
  rw [state_at_pattern hpat h0 h1,
    label_count_eq_moore_edge (binary_of_pattern hpat) hlen hC hedge k,
    moore_count_pattern hlen hC hpat hin2]

theorem with_both_state_at {cs : List cell} (hwl : well_labelled cs) (hco : coherent cs) :
    with_both (state_at cs) cs = cs := by
  apply List.ext_getElem?
  intro i
  simp only [with_both, List.getElem?_map]
  cases hc : cs[i]? with
  | none => rfl
  | some c =>
    have h1 := well_labelled_get hwl hc
    have h2 := coherent_get hco hc
    have h3 : state_at cs c.label = c.state := by
      rw [h1]; simp [state_at, cell_at_nat, hc]
    cases c with
    | mk l r st ns =>
      simp only at h2 h3
      subst h2
      simp only [Option.map_some', h3]

theorem states_of_pattern {cs : List cell} {C : Int} {P : Int → Int → Bool}
    (hpat : is_pattern cs C P) :
    states cs = (List.range cs.length).map fun (i : Nat) =>
      if P ((i : Int) / C) ((i : Int) % C) = true then (1 : Int) else 0 := by
  apply List.ext_getElem?
  intro i
  simp only [states, List.getElem?_map]
  by_cases hi : i < cs.length
  · have hc : cs[i]? = some cs[i] := List.getElem?_eq_getElem hi
    have h := hpat i hi
    have hs : state_at cs (i : Int) = (cs[i]).state := by simp [state_at, cell_at_nat, hc]
    rw [hs] at h
    simp [hc, List.getElem?_range hi, h]
  · have h1 : cs[i]? = none := List.getElem?_eq_none (by omega)
    have h2 : (List.range cs.length)[i]? = none := List.getElem?_eq_none (by simp; omega)
    simp [h1, h2]

theorem state_at_of_states {cs1 cs2 : List cell} (h : states cs1 = states cs2) (k : Int) :
    state_at cs1 k = state_at cs2 k := by
  unfold state_at cell_at
  by_cases hk : k < 0
  · simp only [hk, if_true]
  · simp only [hk, if_false]
    have e := congrArg (fun l => l[k.toNat]?) h
    simp only [states, List.getElem?_map] at e
    cases h1 : cs1[k.toNat]? with
    | none =>
      cases h2 : cs2[k.toNat]? with
      | none => rfl
      | some d => rw [h1, h2] at e; simp at e
    | some c =>
      cases h2 : cs2[k.toNat]? with
      | none => rw [h1, h2] at e; simp at e
      | some d =>
        rw [h1, h2] at e
        simp only [Option.map_some', Option.some.injEq] at e
        exact e

theorem deep_of_position {rows C : Int} (hC : 2 ≤ C) (k : Int)
    (hlo : 3 ≤ k / C ∨ (2 ≤ k / C ∧ 2 ≤ k % C))
    (hhi : k / C + 4 ≤ rows ∨ (k / C + 3 ≤ rows ∧ k % C + 3 ≤ C)) :
    deep_in_bounds (rows * C) C k := by
  rw [deep_in_bounds_iff (by omega)]
  have e := Int.ediv_add_emod' k C
  have hm0 : 0 ≤ k % C := Int.emod_nonneg k (by omega)
  have hm1 : k % C < C := Int.emod_lt_of_pos k (by omega)
  have hC0 : (0 : Int) ≤ C := by omega
  constructor
  · rcases hlo with h | ⟨h, h2⟩
    · have := Int.mul_le_mul_of_nonneg_right h hC0
      omega
    · have := Int.mul_le_mul_of_nonneg_right h hC0
      omega
  · rcases hhi with h | ⟨h, h2⟩
    · have := Int.mul_le_mul_of_nonneg_right h hC0
      have e2 : (k / C + 4) * C = k / C * C + 4 * C := by ring
      omega
    · have := Int.mul_le_mul_of_nonneg_right h hC0
      have e2 : (k / C + 3) * C = k / C * C + 3 * C := by ring
      omega

/-- One call of `update_cells` on a grid at rest whose alive cells form the
pattern `P`, when every alive cell is far enough from the first and last row:
the call returns 0 and the alive cells afterwards form the pattern `Q` that
Conway's rule makes of `P`. -/
theorem step_pattern {cs : List cell} {rows C : Int} {P Q : Int → Int → Bool}
    (hlen : (cs.length : Int) = rows * C) (hC : 0 < C) (hwl : well_labelled cs)
    (hco : coherent cs) (hpat : is_pattern cs C P)
    (hin : ∀ x y, P x y = true → 0 ≤ x ∧ x < rows ∧ 1 ≤ y ∧ y + 2 ≤ C)
    (hrule : ∀ a y, conway_rule (if P a y = true then 1 else 0) (count8 P a y)
      = if Q a y = true then 1 else 0)
    (hdeep : ∀ i : Nat, i < cs.length → state_at cs (i : Int) = 1 →
      deep_in_bounds (cs.length : Int) C (i : Int)) :
    update_cells cs (rows * C) rows C = some (false, with_both (target cs C) cs) ∧
      is_pattern (with_both (target cs C) cs) C Q := by
  constructor
  · rw [← hlen]
    exact update_cells_at_rest hwl hco (binary_of_pattern hpat) rows C hdeep
  · intro i hi
    rw [length_with_both] at hi
    rw [state_at_with_both hwl _ (by omega) (by omega),
      target_pattern hlen hC hpat hin (by omega) (by omega), hrule]

theorem alive_of_pattern {cs : List cell} {C : Int} {P : Int → Int → Bool}
    (hpat : is_pattern cs C P) {i : Nat} (hi : i < cs.length)
    (ha : state_at cs (i : Int) = 1) : P ((i : Int) / C) ((i : Int) % C) = true := by
  have h := hpat i hi
  rw [ha] at h
  cases hp : P ((i : Int) / C) ((i : Int) % C)
  · rw [hp] at h; simp at h
  · rfl

theorem update_cells_iter_fixed {cs : List cell} {N R C : Int} {b : Bool}
    (h : update_cells cs N R C = some (b, cs)) :
    ∀ n : Nat, update_cells_iter N R C n cs = some cs := by
  intro n
  induction n with
  | zero => rfl
  | succ n ih =>
    rw [update_cells_iter, h]
    exact ih

theorem update_cells_iter_error {cs : List cell} (hwl : well_labelled cs) (R C : Int)
    (hbad : ¬ ∀ i : Nat, i < cs.length → state_at cs (i : Int) = 1 →
      deep_in_bounds (cs.length : Int) C (i : Int)) :
    ∀ (n : Nat) (f : Int → Int),
      ∃ f1, update_cells_iter (cs.length : Int) R C n (with_new f cs) = some (with_new f1 cs) := by
  intro n
  induction n with
  | zero => intro f; exact ⟨f, rfl⟩
  | succ n ih =>
    intro f
    obtain ⟨f1, e1⟩ := update_cells_error hwl f R C hbad
    obtain ⟨f2, e2⟩ := ih f1
    refine ⟨f2, ?_⟩
    rw [update_cells_iter, e1]
    exact e2

/-! ## C5: the block -/

/-- C5: on a `rows x cols` grid at rest with `label = i` whose only alive cells
form a 2x2 block that does not touch the border of the grid, any number of
calls of `update_cells`, each on the array the call before left behind, leaves
the state array as it was. -/
theorem block_still_life (cs : List cell) (rows cols r c : Int) (n : Nat)
    (hlen : (cs.length : Int) = rows * cols) (hwl : well_labelled cs) (hco : coherent cs)
    (hr1 : 1 ≤ r) (hr2 : r + 3 ≤ rows) (hc1 : 1 ≤ c) (hc2 : c + 3 ≤ cols)
    (hpat : is_pattern cs cols (block r c)) :
    ∃ out, update_cells_iter (rows * cols) rows cols n cs = some out ∧
      states out = states cs := by
  have hC : 0 < cols := by omega
  have hin : ∀ x y, block r c x y = true → 0 ≤ x ∧ x < rows ∧ 1 ≤ y ∧ y + 2 ≤ cols := by
    intro x y h
    simp only [block, decide_eq_true_eq] at h
    omega
  by_cases hdeep : ∀ i : Nat, i < cs.length → state_at cs (i : Int) = 1 →
      deep_in_bounds (cs.length : Int) cols (i : Int)
  · obtain ⟨e1, _⟩ := step_pattern hlen hC hwl hco hpat hin (block_rule r c) hdeep
    have hfix : with_both (target cs cols) cs = cs := by
      conv => rhs; rw [← with_both_state_at hwl hco]
      apply with_both_congr hwl
      intro m h0 h1
      rw [target_pattern hlen hC hpat hin h0 h1, block_rule, state_at_pattern hpat h0 h1]
    rw [hfix] at e1
    exact ⟨cs, update_cells_iter_fixed e1 n, rfl⟩
  · obtain ⟨f1, e1⟩ := update_cells_iter_error hwl rows cols hdeep n (new_state_at cs)
    rw [with_new_self hwl, hlen] at e1
    exact ⟨_, e1, states_with_new f1 cs⟩

/-- C5, on the 4x4 grid `....` / `.OO.` / `.OO.` / `....`, for three calls. -/
theorem block_still_life_witness :
    ∃ out, update_cells_iter (4 * 4) 4 4 3 (mk_grid 16 [5, 6, 9, 10]) = some out ∧
      states out = states (mk_grid 16 [5, 6, 9, 10]) :=
  block_still_life (mk_grid 16 [5, 6, 9, 10]) 4 4 1 1 3 (by decide) (by decide) (by decide)
    (by decide) (by decide) (by decide) (by decide) (by decide)

/-! ## C4: the blinker -/

/-- C4, as the claim states it, fails on the code: on the 5x5 grid with middle
row `.OOO.`, `update_cells` returns 1 and the state array after the call is
the state array before it. -/
theorem blinker_counterexample :
    well_labelled (mk_grid 25 [11, 12, 13]) ∧ coherent (mk_grid 25 [11, 12, 13]) ∧
    is_pattern (mk_grid 25 [11, 12, 13]) 5 (blinker_h 2 2) ∧
    (update_cells (mk_grid 25 [11, 12, 13]) 25 5 5).map (fun p => (p.1, states p.2))
      = some (true, states (mk_grid 25 [11, 12, 13])) := by
  decide

/-- C4 (amended): on a `rows x cols` grid at rest with `label = i` whose only
alive cells are three horizontally adjacent cells of row `r`, in columns
`c - 1`, `c`, `c + 1` off the first and last column, with at least three rows
above and three rows below row `r`, one call of `update_cells` returns 0 and
yields a different state array, whose alive cells are the three cells of
column `c` in rows `r - 1`, `r`, `r + 1`, and a second call returns 0 and
yields the starting state array. -/
theorem blinker_period_two (cs : List cell) (rows cols r c : Int)
    (hlen : (cs.length : Int) = rows * cols) (hwl : well_labelled cs) (hco : coherent cs)
    (hr1 : 3 ≤ r) (hr2 : r + 4 ≤ rows) (hc1 : 2 ≤ c) (hc2 : c + 3 ≤ cols)
    (hpat : is_pattern cs cols (blinker_h r c)) :
    ∃ out1 out2, update_cells cs (rows * cols) rows cols = some (false, out1) ∧
      states out1 ≠ states cs ∧ is_pattern out1 cols (blinker_v r c) ∧
      update_cells out1 (rows * cols) rows cols = some (false, out2) ∧
      states out2 = states cs := by
  have hC : 0 < cols := by omega
  have hin1 : ∀ x y, blinker_h r c x y = true → 0 ≤ x ∧ x < rows ∧ 1 ≤ y ∧ y + 2 ≤ cols := by
    intro x y h
    simp only [blinker_h, decide_eq_true_eq] at h
    omega
  have hin2 : ∀ x y, blinker_v r c x y = true → 0 ≤ x ∧ x < rows ∧ 1 ≤ y ∧ y + 2 ≤ cols := by
    intro x y h
    simp only [blinker_v, decide_eq_true_eq] at h
    omega
  have hdeep1 : ∀ i : Nat, i < cs.length → state_at cs (i : Int) = 1 →
      deep_in_bounds (cs.length : Int) cols (i : Int) := by
    intro i hi ha
    have hp := alive_of_pattern hpat hi ha
    simp only [blinker_h, decide_eq_true_eq] at hp
    rw [hlen]
    exact deep_of_position (by omega) _ (by omega) (by omega)
  obtain ⟨e1, hpat1⟩ := step_pattern hlen hC hwl hco hpat hin1 (blinker_h_rule r c) hdeep1
  have hwl1 := well_labelled_with_both hwl (target cs cols)
  have hco1 := coherent_with_both (target cs cols) cs
  have hlen1 : ((with_both (target cs cols) cs).length : Int) = rows * cols := by
    rw [length_with_both]; exact hlen
  have hdeep2 : ∀ i : Nat, i < (with_both (target cs cols) cs).length →
      state_at (with_both (target cs cols) cs) (i : Int) = 1 →
      deep_in_bounds ((with_both (target cs cols) cs).length : Int) cols (i : Int) := by
    intro i hi ha
    have hp := alive_of_pattern hpat1 hi ha
    simp only [blinker_v, decide_eq_true_eq] at hp
    rw [hlen1]
    exact deep_of_position (by omega) _ (by omega) (by omega)
  obtain ⟨e2, hpat2⟩ :=
    step_pattern hlen1 hC hwl1 hco1 hpat1 hin2 (blinker_v_rule r c) hdeep2
  refine ⟨_, _, e1, ?_, hpat1, e2, ?_⟩
  · intro heq
    have hk := index_in_grid rows (a := r) (b := c - 1) hC (by omega) (by omega)
    have hb := hk.mpr ⟨by omega, by omega⟩
    obtain ⟨d1, d2⟩ := grid_div_mod (C := cols) (x := r) (y := c - 1) (by omega) (by omega)
    have s1 := state_at_pattern hpat hb.1 (by omega)
    have s2 := state_at_pattern hpat1 hb.1 (by rw [length_with_both]; omega)
    rw [d1, d2] at s1 s2
    rw [state_at_of_states heq] at s2
    rw [s1] at s2
    simp [blinker_h, blinker_v] at s2
  · rw [states_of_pattern hpat2, states_of_pattern hpat, length_with_both, length_with_both]

/-- C4 (amended), on the 7x5 grid whose row 3 is `.OOO.`. -/
theorem blinker_period_two_witness :
    ∃ out1 out2, update_cells (mk_grid 35 [16, 17, 18]) (7 * 5) 7 5 = some (false, out1) ∧
      states out1 ≠ states (mk_grid 35 [16, 17, 18]) ∧ is_pattern out1 5 (blinker_v 3 2) ∧
      update_cells out1 (7 * 5) 7 5 = some (false, out2) ∧
      states out2 = states (mk_grid 35 [16, 17, 18]) :=
  blinker_period_two (mk_grid 35 [16, 17, 18]) 7 5 3 2 (by decide) (by decide) (by decide)
    (by decide) (by decide) (by decide) (by decide) (by decide)

/-! ## C15: accesses stay inside the array -/

/-- C15: on an array of `num_cells` cells with `label = i`, no read or write of
`update_cells` and `get_neighbor_info` leaves the array: `update_cells`
returns, and `get_neighbor_info` returns for every cell of the array. -/
theorem accesses_in_bounds (cs : List cell) (N R C : Int)
    (hlen : (cs.length : Int) = N) (hwl : well_labelled cs) :
    (∃ b out, update_cells cs N R C = some (b, out)) ∧
      ∀ c ∈ cs, ∃ info, get_neighbor_info c cs R C N = some info := by
  subst hlen
  constructor
  · obtain ⟨b, f1, e1, _, _⟩ := update_cells_with_new hwl (new_state_at cs) R C
    rw [with_new_self hwl] at e1
    exact ⟨b, _, e1⟩
  · intro c hc
    obtain ⟨i, hi⟩ := List.mem_iff_getElem?.mp hc
    have hl := well_labelled_get hwl hi
    by_cases hin : labels_in_bounds (cs.length : Int) C (i : Int)
    · obtain ⟨ncs, e1, _⟩ := get_neighbor_info_in hwl (new_state_at cs) (R := R) hl hin
      rw [with_new_self hwl] at e1
      exact ⟨_, e1⟩
    · exact ⟨_, get_neighbor_info_out cs hl hin⟩

/-- C15, on the 3x3 grid with the corner cell 0 and the centre alive. -/
theorem accesses_in_bounds_witness :
    (∃ b out, update_cells (mk_grid 9 [0, 4]) 9 3 3 = some (b, out)) ∧
      ∀ c ∈ mk_grid 9 [0, 4], ∃ info, get_neighbor_info c (mk_grid 9 [0, 4]) 3 3 9 = some info :=
  accesses_in_bounds (mk_grid 9 [0, 4]) 9 3 3 (by decide) (by decide)

/-! ## C18: when `update_cells` fails -/

/-- C18: on an array of `N` cells with `label = i` and `C >= 1` columns,
`update_cells` returns 1 exactly when some alive cell has an index below
`2 C + 2` or above `N - 2 C - 3`, and then the state array is unchanged. -/
theorem update_cells_fails_iff (cs : List cell) (N R C : Int)
    (hC : 1 ≤ C) (hlen : (cs.length : Int) = N) (hwl : well_labelled cs) :
    ∃ b out, update_cells cs N R C = some (b, out) ∧
      (b = true ↔ ∃ i : Nat, i < cs.length ∧ state_at cs (i : Int) = 1 ∧
        ((i : Int) < 2 * C + 2 ∨ (i : Int) > N - 2 * C - 3)) ∧
      (b = true → states out = states cs) := by
  subst hlen
  obtain ⟨b, f1, e1, e2, _⟩ := update_cells_with_new hwl (new_state_at cs) R C
  rw [with_new_self hwl] at e1
  refine ⟨b, _, e1, ?_, ?_⟩
  · constructor
    · intro hb
      by_contra hno
      have : b = false := by
        apply e2.mpr
        intro i hi ha
        apply (deep_in_bounds_iff (by omega)).mpr
        by_contra hbad
        exact hno ⟨i, hi, ha, by omega⟩
      rw [this] at hb
      cases hb
    · rintro ⟨i, hi, ha, hbad⟩
      cases hb : b with
      | true => rfl
      | false =>
        have := (deep_in_bounds_iff (by omega)).mp (e2.mp hb i hi ha)
        omega
  · intro hb
    rw [hb]
    exact states_with_new f1 cs

/-- C18, on the 3x3 grid with the centre alive. -/
theorem update_cells_fails_iff_witness :
    ∃ b out, update_cells (mk_grid 9 [4]) 9 3 3 = some (b, out) ∧
      (b = true ↔ ∃ i : Nat, i < (mk_grid 9 [4]).length ∧
        state_at (mk_grid 9 [4]) (i : Int) = 1 ∧
        ((i : Int) < 2 * 3 + 2 ∨ (i : Int) > 9 - 2 * 3 - 3)) ∧
      (b = true → states out = states (mk_grid 9 [4])) :=
  update_cells_fails_iff (mk_grid 9 [4]) 9 3 3 (by decide) (by decide) (by decide)

/-! ## C19: agreement with Conway's rule in the interior -/

/-- C19: on a `rows x cols` grid with `cols >= 3`, `label = i` and
`state = new_state` in {0,1}, in which every alive cell has an index in
`[2 cols + 2, rows cols - 2 cols - 3]` and a column in `[1, cols - 2]`,
`update_cells` returns 0, the state array afterwards is one generation of
Conway's rule on the bounded grid, and `state = new_state` for every cell. -/
theorem update_cells_interior (cs : List cell) (rows cols : Int)
    (hcols : 3 ≤ cols) (hlen : (cs.length : Int) = rows * cols) (hwl : well_labelled cs)
    (hco : coherent cs) (hbin : binary cs)
    (hin : ∀ i : Nat, i < cs.length → state_at cs (i : Int) = 1 →
      2 * cols + 2 ≤ (i : Int) ∧ (i : Int) ≤ rows * cols - 2 * cols - 3 ∧
      1 ≤ (i : Int) % cols ∧ (i : Int) % cols + 2 ≤ cols) :
    ∃ out, update_cells cs (rows * cols) rows cols = some (false, out) ∧
      states out = conway_step cs rows cols ∧ coherent out := by
  have hdeep : ∀ i : Nat, i < cs.length → state_at cs (i : Int) = 1 →
      deep_in_bounds (cs.length : Int) cols (i : Int) := by
    intro i hi ha
    have := hin i hi ha
    exact (deep_in_bounds_iff (by omega)).mpr (by omega)
  have hedge : ∀ k : Int, state_at cs k = 1 → 1 ≤ k % cols ∧ k % cols + 2 ≤ cols := by
    intro k hk
    have hb := state_at_alive_bounds hk
    have hk2 : ((k.toNat : Nat) : Int) = k := by omega
    have := hin k.toNat (by omega) (by rw [hk2]; exact hk)
    rw [hk2] at this
    exact ⟨this.2.2.1, this.2.2.2⟩
  refine ⟨with_both (target cs cols) cs, ?_, ?_, coherent_with_both _ _⟩
  · rw [← hlen]
    exact update_cells_at_rest hwl hco hbin rows cols hdeep
  · rw [states_with_both hwl, conway_step]
    apply List.map_congr_left
    intro i _
    rw [target, label_count_eq_moore_edge hbin hlen (by omega) hedge (i : Int)]

/-- C19, on the 6x4 grid with alive cells 10 and 13. -/
theorem update_cells_interior_witness :
    ∃ out, update_cells (mk_grid 24 [10, 13]) (6 * 4) 6 4 = some (false, out) ∧
      states out = conway_step (mk_grid 24 [10, 13]) 6 4 ∧ coherent out :=
  update_cells_interior (mk_grid 24 [10, 13]) 6 4 (by decide) (by decide) (by decide)
    (by decide) (by decide) (by decide)

/-! ## C17: binary states -/

theorem binary_both_set {cs : List cell} (h : binary_both cs) (i : Nat) {c : cell}
    (hc : binary_cell c) : binary_both (cs.set i c) := by
  intro d hd
  rcases List.mem_or_eq_of_mem_set hd with h1 | h1
  · exact h d h1
  · rw [h1]; exact hc

theorem binary_cell_new {c : cell} (hc : binary_cell c) {v : Int} (hv : v = 0 ∨ v = 1) :
    binary_cell { c with new_state := v } :=
  ⟨hc.1, hv⟩

theorem set_new_state_binary {cur out : List cell} {k v : Int} (h : binary_both cur)
    (hv : v = 0 ∨ v = 1) (hs : set_new_state cur k v = some out) : binary_both out := by
  unfold set_new_state at hs
  split at hs
  · cases hs
  · rename_i c hc
    have := Option.some.inj hs
    rw [← this]
    have hmem : c ∈ cur := List.getElem?_mem (cell_at_eq_some.mp hc).2
    exact binary_both_set h _ (binary_cell_new (h c hmem) hv)

theorem update_neighbors_binary (R C N : Int) :
    ∀ (ncs cur : List cell) (b : Bool) (out : List cell), binary_both cur →
      update_neighbors R C N ncs cur = some (b, out) → binary_both out := by
  intro ncs
  induction ncs with
  | nil =>
    intro cur b out hb h
    simp only [update_neighbors, Option.some.injEq, Prod.mk.injEq] at h
    rw [← h.2]; exact hb
  | cons n rest ih =>
    intro cur b out hb h
    rw [update_neighbors] at h
    split at h
    · cases h
    · split at h
      · cases h
      · split at h
        · simp only [Option.some.injEq, Prod.mk.injEq] at h
          rw [← h.2]; exact hb
        · split at h
          · split at h
            · cases h
            · rename_i cur1 hset
              exact ih _ _ _ (set_new_state_binary hb (Or.inr rfl) hset) h
          · exact ih _ _ _ hb h

theorem update_loop_binary (R C N : Int) :
    ∀ (is : List Nat) (cur : List cell) (b : Bool) (out : List cell), binary_both cur →
      update_loop R C N is cur = some (b, out) → binary_both out := by
  intro is
  induction is with
  | nil =>
    intro cur b out hb h
    simp only [update_loop, Option.some.injEq, Prod.mk.injEq] at h
    rw [← h.2]; exact hb
  | cons i rest ih =>
    intro cur b out hb h
    cases h0 : cur[i]? with
    | none => rw [update_loop_none h0] at h; cases h
    | some ci =>
      have hci : binary_cell ci := hb ci (List.getElem?_mem h0)
      by_cases ha : ci.state = 1
      · cases hg : get_neighbor_info ci cur R C N with
        | none => rw [update_loop_fault h0 ha hg] at h; cases h
        | some info =>
          cases ho : info.out_of_bounds_access with
          | true =>
            rw [update_loop_flagged h0 ha hg ho] at h
            simp only [Option.some.injEq, Prod.mk.injEq] at h
            rw [← h.2]; exact hb
          | false =>
            rw [update_loop_scan h0 ha hg ho rfl] at h
            have hb1 : binary_both
                (if info.sum_neighbor_states < 2 ∨ info.sum_neighbor_states > 3
                  then cur.set i { ci with new_state := 0 } else cur) := by
              split
              · exact binary_both_set hb i (binary_cell_new hci (Or.inl rfl))
              · exact hb
            cases hn : update_neighbors R C N info.neighbor_cells
                (if info.sum_neighbor_states < 2 ∨ info.sum_neighbor_states > 3
                  then cur.set i { ci with new_state := 0 } else cur) with
            | none => rw [hn] at h; cases h
            | some p =>
              rcases p with ⟨b1, cur2⟩
              have hb2 := update_neighbors_binary R C N _ _ _ _ hb1 hn
              rw [hn] at h
              cases b1 with
              | true =>
                simp only [Option.some.injEq, Prod.mk.injEq] at h
                rw [← h.2]; exact hb2
              | false => exact ih _ _ _ hb2 h
      · rw [update_loop_dead h0 ha] at h
        exact ih _ _ _ hb h

theorem for_cells_binary {f : cell → cell} (hf : ∀ c, binary_cell c → binary_cell (f c)) :
    ∀ (is : List Nat) (cur out : List cell), binary_both cur →
      for_cells f is cur = some out → binary_both out := by
  intro is
  induction is with
  | nil =>
    intro cur out hb h
    simp only [for_cells, Option.some.injEq] at h
    rw [← h]; exact hb
  | cons i rest ih =>
    intro cur out hb h
    rw [for_cells] at h
    split at h
    · cases h
    · rename_i c hc
      exact ih _ _ (binary_both_set hb i (hf c (hb c (List.getElem?_mem hc)))) h

theorem lnot_binary (v : Int) : lnot v = 0 ∨ lnot v = 1 := by
  unfold lnot
  split
  · exact Or.inr rfl
  · exact Or.inl rfl

theorem edit_cell_binary (H : Vector2 → Rectangle → Bool) (p : Vector2) (pressed : Bool)
    (c : cell) (hc : binary_cell c) : binary_cell (edit_cell H p pressed c) := by
  unfold edit_cell
  split
  · exact ⟨lnot_binary _, lnot_binary _⟩
  · exact hc

theorem update_cells_binary {cs out : List cell} {N R C : Int} {b : Bool}
    (hb : binary_both cs) (h : update_cells cs N R C = some (b, out)) : binary_both out := by
  unfold update_cells at h
  cases hl : update_loop R C N (List.range N.toNat) cs with
  | none => rw [hl] at h; cases h
  | some p =>
    rcases p with ⟨b1, cur1⟩
    have hb1 := update_loop_binary R C N _ _ _ _ hb hl
    rw [hl] at h
    cases b1 with
    | true =>
      simp only [Option.some.injEq, Prod.mk.injEq] at h
      rw [← h.2]; exact hb1
    | false =>
      simp only at h
      cases hf : for_cells refresh (List.range N.toNat) cur1 with
      | none => rw [hf] at h; cases h
      | some cur2 =>
        rw [hf] at h
        simp only [Option.some.injEq, Prod.mk.injEq] at h
        rw [← h.2]
        have hr : ∀ c, binary_cell c → binary_cell (refresh c) := fun c hc => ⟨hc.2, hc.2⟩
        exact for_cells_binary hr _ _ _ hb1 hf

/-- C17: if every `state` and `new_state` of an array of `num_cells` cells is 0
or 1, this is still so after the editor loop of a frame, after the reset loop,
and after a call of `update_cells`, whatever it returns. -/
theorem binary_preserved (cs : List cell) (N R C : Int)
    (hlen : (cs.length : Int) = N) (hb : binary_both cs) :
    (∀ (CheckCollisionPointRec : Vector2 → Rectangle → Bool) (p : Vector2) (pressed : Bool),
      ∃ out, for_cells (edit_cell CheckCollisionPointRec p pressed) (List.range N.toNat) cs
          = some out ∧ binary_both out) ∧
    (∃ out, for_cells reset_cell (List.range N.toNat) cs = some out ∧ binary_both out) ∧
    (∀ b out, update_cells cs N R C = some (b, out) → binary_both out) := by
  have hn : N.toNat = cs.length := by omega
  refine ⟨?_, ?_, ?_⟩
  · intro H p pressed
    have e := for_cells_range (edit_cell H p pressed) cs
    rw [← hn] at e
    exact ⟨_, e, for_cells_binary (edit_cell_binary H p pressed) _ _ _ hb e⟩
  · have e := for_cells_range reset_cell cs
    rw [← hn] at e
    have hr : ∀ c, binary_cell c → binary_cell (reset_cell c) :=
      fun c _ => ⟨Or.inl rfl, Or.inl rfl⟩
    exact ⟨_, e, for_cells_binary hr _ _ _ hb e⟩
  · intro b out h
    exact update_cells_binary hb h

/-- C17, on the 3x3 grid with the centre alive, where `update_cells`
returns 1. -/
theorem binary_preserved_witness :
    (∀ (CheckCollisionPointRec : Vector2 → Rectangle → Bool) (p : Vector2) (pressed : Bool),
      ∃ out, for_cells (edit_cell CheckCollisionPointRec p pressed) (List.range (9 : Int).toNat)
          (mk_grid 9 [4]) = some out ∧ binary_both out) ∧
    (∃ out, for_cells reset_cell (List.range (9 : Int).toNat) (mk_grid 9 [4]) = some out ∧
      binary_both out) ∧
    (∀ b out, update_cells (mk_grid 9 [4]) 9 3 3 = some (b, out) → binary_both out) :=
  binary_preserved (mk_grid 9 [4]) 9 3 3 (by decide) (by decide)

/-! ## The three branches of a frame -/

theorem frame_step_paused (H : Vector2 → Rectangle → Bool) (R C : Int) (inp : Input)
    (g : Game) (hp : g.pause = true) :
    frame_step H R C inp g = some { g with frames_counter := g.frames_counter + 1 } := by
  unfold frame_step
  simp only [hp, Bool.not_true, Bool.false_eq_true, if_false]

theorem frame_step_run (H : Vector2 → Rectangle → Bool) (R C : Int) (inp : Input)
    (g : Game) (hp : g.pause = false) (hs : g.start = true) :
    frame_step H R C inp g
      = (update_cells g.cells (C * R) R C).map fun p =>
          { g with
            out_of_bounds_access := p.1
            cells := p.2
            reset := if p.1 then true else g.reset } := by
  unfold frame_step
  simp only [hp, hs, Bool.not_false, Bool.not_true, Bool.false_eq_true, if_true, if_false]
  cases update_cells g.cells (C * R) R C with
  | none => rfl
  | some p => rfl

theorem frame_step_edit (H : Vector2 → Rectangle → Bool) (R C : Int) (inp : Input)
    (g : Game) (hp : g.pause = false) (hs : g.start = false)
    (hlen : (g.cells.length : Int) = C * R) :
    frame_step H R C inp g
      = some { g with
          mousePoint := inp.mouse_position
          cells := g.cells.map (edit_cell H inp.mouse_position inp.MOUSE_BUTTON_LEFT) } := by
  unfold frame_step
  have hn : (C * R).toNat = g.cells.length := by omega
  simp only [hp, hs, Bool.not_false, if_true, hn, for_cells_range]

theorem update_cells_length {cs out : List cell} {N R C : Int}
    (h : update_cells cs N R C = some (true, out)) : out.length = cs.length := by
  unfold update_cells at h
  cases hl : update_loop R C N (List.range N.toNat) cs with
  | none => rw [hl] at h; cases h
  | some p =>
    rcases p with ⟨b1, cur1⟩
    have h1 := update_loop_length R C N _ _ _ _ hl
    rw [hl] at h
    cases b1 with
    | true =>
      simp only [Option.some.injEq, Prod.mk.injEq, true_and] at h
      rw [← h]; exact h1
    | false =>
      simp only at h
      cases hf : for_cells refresh (List.range N.toNat) cur1 with
      | none => rw [hf] at h; cases h
      | some cur2 =>
        rw [hf] at h
        simp at h

theorem edit_cell_idle (H : Vector2 → Rectangle → Bool) (p : Vector2) (c : cell) :
    edit_cell H p false c = c := by
  simp [edit_cell]

theorem frame_of_step {H : Vector2 → Rectangle → Bool} {R C : Int} {inp : Input} {g g1 : Game}
    (h : frame_step H R C inp (frame_keys inp g) = some g1) :
    frame H R C inp g = frame_reset R C g1 := by
  unfold frame
  rw [h]

/-! ## C20: an engine error wipes the grid -/

theorem frame_error_reset (H : Vector2 → Rectangle → Bool) (R C : Int) (inp : Input)
    (g : Game) (out : List cell) (hlen : (g.cells.length : Int) = C * R)
    (hp : (frame_keys inp g).pause = false) (hs : (frame_keys inp g).start = true)
    (hu : update_cells g.cells (C * R) R C = some (true, out)) :
    ∃ g1, frame H R C inp g = some g1 ∧ (∀ c ∈ g1.cells, c.state = 0 ∧ c.new_state = 0) ∧
      g1.start = false ∧ g1.reset = false ∧ g1.pause = (frame_keys inp g).pause := by
  have hu1 : update_cells (frame_keys inp g).cells (C * R) R C = some (true, out) := hu
  have e1 := frame_step_run H R C inp (frame_keys inp g) hp hs
  rw [hu1] at e1
  have hl : (out.length : Int) = C * R := by rw [update_cells_length hu]; exact hlen
  simp only [Option.map_some'] at e1
  have e2 := (frame_of_step e1).trans (frame_reset_on R C _ rfl hl)
  refine ⟨_, e2, ?_, rfl, rfl, rfl⟩
  intro c hc
  simp only [List.mem_map] at hc
  obtain ⟨d, _, rfl⟩ := hc
  exact ⟨rfl, rfl⟩

theorem update_cells_error_of_index {cs : List cell} {N R C : Int} (hC : 1 ≤ C)
    (hlen : (cs.length : Int) = N) (hwl : well_labelled cs)
    (hbad : ∃ i : Nat, i < cs.length ∧ state_at cs (i : Int) = 1 ∧
      ((i : Int) < 2 * C + 2 ∨ (i : Int) > N - 2 * C - 3)) :
    ∃ out, update_cells cs N R C = some (true, out) := by
  subst hlen
  obtain ⟨i, hi, ha, hout⟩ := hbad
  have hnot : ¬ ∀ j : Nat, j < cs.length → state_at cs (j : Int) = 1 →
      deep_in_bounds (cs.length : Int) C (j : Int) := by
    intro hall
    have := (deep_in_bounds_iff (by omega)).mp (hall i hi ha)
    omega
  obtain ⟨f1, e1⟩ := update_cells_error hwl (new_state_at cs) R C hnot
  rw [with_new_self hwl] at e1
  exact ⟨_, e1⟩

/-- C20: in a frame in which the simulation is running after the keys were
handled (`start` set, `pause` clear) and `update_cells` returns 1, the frame
ends with every cell dead and with `start` and `reset` cleared, while `pause`
keeps its value; so a frame that runs on a grid with `label = i` that has an
alive cell with an index below `2 C + 2` or above `N - 2 C - 3` ends with the
grid all dead. -/
theorem frame_engine_error (CheckCollisionPointRec : Vector2 → Rectangle → Bool)
    (R C : Int) (inp : Input) (g : Game) (hlen : (g.cells.length : Int) = C * R)
    (hp : (frame_keys inp g).pause = false) (hs : (frame_keys inp g).start = true) :
    (∀ out, update_cells g.cells (C * R) R C = some (true, out) →
      ∃ g1, frame CheckCollisionPointRec R C inp g = some g1 ∧
        (∀ c ∈ g1.cells, c.state = 0 ∧ c.new_state = 0) ∧
        g1.start = false ∧ g1.reset = false ∧ g1.pause = (frame_keys inp g).pause) ∧
    (well_labelled g.cells → 1 ≤ C →
      (∃ i : Nat, i < g.cells.length ∧ state_at g.cells (i : Int) = 1 ∧
        ((i : Int) < 2 * C + 2 ∨ (i : Int) > C * R - 2 * C - 3)) →
      ∃ g1, frame CheckCollisionPointRec R C inp g = some g1 ∧
        (∀ c ∈ g1.cells, c.state = 0 ∧ c.new_state = 0) ∧
        g1.start = false ∧ g1.reset = false ∧ g1.pause = (frame_keys inp g).pause) := by
  constructor
  · intro out hu
    exact frame_error_reset CheckCollisionPointRec R C inp g out hlen hp hs hu
  · intro hwl hC hbad
    obtain ⟨out, e1⟩ := update_cells_error_of_index (R := R) hC hlen hwl hbad
    exact frame_error_reset CheckCollisionPointRec R C inp g out hlen hp hs e1

/-- C20, on the 3x3 grid with the centre alive, in the frame in which ENTER is
pressed. -/
theorem frame_engine_error_witness :
    ∃ g1, frame (fun _ _ => false) 3 3 ⟨false, false, true, false, false, false, ⟨0, 0⟩, 40⟩
        (initial_game (mk_grid 9 [4])) = some g1 ∧
      (∀ c ∈ g1.cells, c.state = 0 ∧ c.new_state = 0) ∧
      g1.start = false ∧ g1.reset = false ∧
      g1.pause = (frame_keys ⟨false, false, true, false, false, false, ⟨0, 0⟩, 40⟩
        (initial_game (mk_grid 9 [4]))).pause :=
  (frame_engine_error (fun _ _ => false) 3 3 ⟨false, false, true, false, false, false, ⟨0, 0⟩, 40⟩
    (initial_game (mk_grid 9 [4])) (by decide) (by decide) (by decide)).2
    (by decide) (by decide) ⟨4, by decide, by decide, by decide⟩

/-! ## C12: one generation per running frame -/

/-- C12: after the keys of a frame were handled, a running controller (`start`
set, `pause` clear) makes the frame apply `update_cells` once to the cell
array, and the array the call leaves is the array of the frame unless a reset
follows; a paused controller, and an editing controller without a button
press, leave every cell as it is unless a reset follows. -/
theorem one_generation_per_frame (CheckCollisionPointRec : Vector2 → Rectangle → Bool)
    (R C : Int) (inp : Input) (g : Game) (hlen : (g.cells.length : Int) = C * R) :
    ((frame_keys inp g).pause = false → (frame_keys inp g).start = true →
      frame_step CheckCollisionPointRec R C inp (frame_keys inp g)
          = (update_cells g.cells (C * R) R C).map (fun p =>
              { frame_keys inp g with
                out_of_bounds_access := p.1
                cells := p.2
                reset := if p.1 then true else (frame_keys inp g).reset }) ∧
        ∀ out, update_cells g.cells (C * R) R C = some (false, out) →
          (frame_keys inp g).reset = false →
          ∃ g1, frame CheckCollisionPointRec R C inp g = some g1 ∧ g1.cells = out) ∧
    ((frame_keys inp g).pause = true → (frame_keys inp g).reset = false →
      ∃ g1, frame CheckCollisionPointRec R C inp g = some g1 ∧ g1.cells = g.cells) ∧
    ((frame_keys inp g).pause = false → (frame_keys inp g).start = false →
      (frame_keys inp g).reset = false → inp.MOUSE_BUTTON_LEFT = false →
      ∃ g1, frame CheckCollisionPointRec R C inp g = some g1 ∧ g1.cells = g.cells) := by
  refine ⟨?_, ?_, ?_⟩
  · intro hp hs
    have e1 := frame_step_run CheckCollisionPointRec R C inp (frame_keys inp g) hp hs
    refine ⟨e1, ?_⟩
    intro out hu hr
    have hu1 : update_cells (frame_keys inp g).cells (C * R) R C = some (false, out) := hu
    rw [hu1] at e1
    simp only [Option.map_some'] at e1
    have e2 := (frame_of_step e1).trans (frame_reset_off R C _ hr)
    exact ⟨_, e2, rfl⟩
  · intro hp hr
    obtain ⟨g1, e1, e2, _⟩ := frame_paused_idle CheckCollisionPointRec R C inp g hp hr
    exact ⟨g1, e1, e2⟩
  · intro hp hs hr hm
    have hl : ((frame_keys inp g).cells.length : Int) = C * R := hlen
    have e1 := frame_step_edit CheckCollisionPointRec R C inp (frame_keys inp g) hp hs hl
    have e2 := (frame_of_step e1).trans (frame_reset_off R C _ hr)
    refine ⟨_, e2, ?_⟩
    show List.map _ g.cells = g.cells
    rw [hm]
    conv => rhs; rw [← List.map_id g.cells]
    apply List.map_congr_left
    intro c _
    exact edit_cell_idle _ _ c

/-- C12, on the 6x4 grid with alive cells 10 and 13, running: the frame ends
with the all-dead array that `update_cells` leaves. -/
theorem one_generation_per_frame_witness :
    ∃ g1, frame (fun _ _ => false) 6 4 ⟨false, false, false, false, false, false, ⟨0, 0⟩, 40⟩
        ⟨false, true, false, false, 0, 40, ⟨0, 0⟩, mk_grid 24 [10, 13]⟩ = some g1 ∧
      g1.cells = mk_grid 24 [] :=
  ((one_generation_per_frame (fun _ _ => false) 6 4
    ⟨false, false, false, false, false, false, ⟨0, 0⟩, 40⟩
    ⟨false, true, false, false, 0, 40, ⟨0, 0⟩, mk_grid 24 [10, 13]⟩ (by decide)).1
    (by decide) (by decide)).2 (mk_grid 24 []) (by decide) (by decide)

/-! ## C11: the controller under ENTER and SPACE -/

/-- C11, as the claim states it, fails on the code: in EDIT (`pause = 0`,
`start = 0`) on a 2x2 grid, a frame in which SPACE is pressed ends with
`pause = 1`, and in the following frame a left-button press on a cell, with a
hit test that reports every cell, toggles no cell. -/
theorem controller_keys_counterexample :
    frame (fun _ _ => true) 2 2 ⟨true, false, false, false, false, false, ⟨0, 0⟩, 40⟩
        (initial_game (mk_grid 4 []))
      = some ⟨true, false, false, false, 1, 40, ⟨0, 0⟩, mk_grid 4 []⟩ ∧
    frame (fun _ _ => true) 2 2 ⟨false, false, false, false, false, true, ⟨0, 0⟩, 40⟩
        ⟨true, false, false, false, 1, 40, ⟨0, 0⟩, mk_grid 4 []⟩
      = some ⟨true, false, false, false, 2, 40, ⟨0, 0⟩, mk_grid 4 []⟩ := by
  decide

/-- C11 (amended): a press of ENTER alone sets `start` and leaves `pause` as it
is, so it takes EDIT to RUN and changes nothing in RUN and PAUSE; a press of
SPACE alone flips `pause` and leaves `start` as it is, so it takes RUN to PAUSE
and PAUSE to RUN, and EDIT to the state `pause = 1`, `start = 0`; in that state
a frame without key presses leaves every cell as it is, also under a
left-button press. -/
theorem controller_keys (CheckCollisionPointRec : Vector2 → Rectangle → Bool) (R C : Int)
    (g : Game) (m : Bool) (p : Vector2) (fps : Int) :
    frame_keys ⟨false, false, true, false, false, m, p, fps⟩ g = { g with start := true } ∧
    frame_keys ⟨true, false, false, false, false, m, p, fps⟩ g = { g with pause := !g.pause } ∧
    frame CheckCollisionPointRec R C ⟨false, false, false, false, false, m, p, fps⟩
        { g with pause := true, start := false, reset := false }
      = some { g with pause := true, start := false, reset := false,
                      frames_counter := g.frames_counter + 1 } := by
  refine ⟨rfl, rfl, ?_⟩
  refine Eq.trans (frame_paused _ _ _ _ _ rfl) ?_
  exact frame_reset_off _ _ _ rfl

/-! ## C13: the frame-rate keys -/

theorem frame_step_target_fps {H : Vector2 → Rectangle → Bool} {R C : Int} {inp : Input}
    {g g2 : Game} (hs : frame_step H R C inp g = some g2) : g2.target_fps = g.target_fps := by
  unfold frame_step at hs
  dsimp only at hs
  split at hs
  · split at hs
    · split at hs
      · cases hs
      · have := Option.some.inj hs
        rw [← this]
    · split at hs
      · cases hs
      · have := Option.some.inj hs
        rw [← this]
  · have := Option.some.inj hs
    rw [← this]

theorem frame_reset_target_fps {R C : Int} {g g1 : Game}
    (h : frame_reset R C g = some g1) : g1.target_fps = g.target_fps := by
  unfold frame_reset at h
  dsimp only at h
  split at h
  · split at h
    · cases h
    · have := Option.some.inj h
      rw [← this]
  · have := Option.some.inj h
    rw [← this]

/-- C13, as the claim states it, fails on the code: with a current frame rate
of 5, a LEFT press passes 0 to `SetTargetFPS`. -/
theorem frame_rate_counterexample :
    (frame_keys ⟨false, false, false, true, false, false, ⟨0, 0⟩, 5⟩
      (initial_game [])).target_fps = 0 := by
  decide

/-- C13 (amended): a LEFT press passes the current frame rate less 5 to
`SetTargetFPS`, a RIGHT press without a LEFT press the current frame rate
plus 5, and no other step of a frame changes the value; the code has no floor:
the value after a LEFT press is at least 5 exactly when the current frame rate
is at least 10. -/
theorem frame_rate_keys (g : Game) (s r e rt m : Bool) (p : Vector2) (fps : Int) :
    (frame_keys ⟨s, r, e, true, rt, m, p, fps⟩ g).target_fps = fps - 5 ∧
    (frame_keys ⟨s, r, e, false, true, m, p, fps⟩ g).target_fps = fps + 5 ∧
    (frame_keys ⟨s, r, e, false, false, m, p, fps⟩ g).target_fps = g.target_fps ∧
    (5 ≤ (frame_keys ⟨s, r, e, true, rt, m, p, fps⟩ g).target_fps ↔ 10 ≤ fps) ∧
    ∀ (CheckCollisionPointRec : Vector2 → Rectangle → Bool) (R C : Int) (inp : Input)
      (g1 : Game), frame CheckCollisionPointRec R C inp g = some g1 →
        g1.target_fps = (frame_keys inp g).target_fps := by
  refine ⟨rfl, rfl, rfl, ?_, ?_⟩
  · show 5 ≤ fps - 5 ↔ 10 ≤ fps
    omega
  · intro H R C inp g1 h
    unfold frame at h
    cases hs : frame_step H R C inp (frame_keys inp g) with
    | none => rw [hs] at h; cases h
    | some g2 =>
      rw [hs] at h
      rw [frame_reset_target_fps h, frame_step_target_fps hs]

/-! ## C16: the geometry of the grid of `main` -/

theorem num_columns_eq : num_columns = 32 := by decide

theorem num_rows_eq : num_rows = 19 := by decide

theorem dist_bw_cells_eq : dist_bw_cells = 10 := by decide

theorem main_cells_length : main_cells.length = 608 := by
  simp only [main_cells, List.length_map, List.length_range, num_cells, num_columns_eq,
    num_rows_eq]
  decide

theorem main_cells_get (i : Nat) (hi : i < 608) :
    main_cells[i]? = some (main_cell (i : Int)) := by
  have hn : num_cells.toNat = 608 := by
    simp only [num_cells, num_columns_eq, num_rows_eq]
    decide
  simp only [main_cells, hn, List.getElem?_map, List.getElem?_range hi, Option.map_some']

theorem main_cell_x (i : Int) : (main_cell i).rect_dim.x = 20 + 30 * (i % 32) := by
  simp only [main_cell, num_columns_eq, dist_bw_cells_eq, horizontal_padding, cell_length]
  omega

theorem main_cell_y (i : Int) : (main_cell i).rect_dim.y = 20 + 30 * (i / 32) := by
  simp only [main_cell, num_columns_eq, dist_bw_cells_eq, vertical_padding, cell_length]
  omega

theorem main_cell_width (i : Int) : (main_cell i).rect_dim.width = 20 := rfl

theorem main_cell_height (i : Int) : (main_cell i).rect_dim.height = 20 := rfl

/-- C16: the grid `main` builds has 32 columns, 19 rows and 608 cells, the
cell with index `i` carrying the rectangle computed for `i`; the rectangles of
two distinct cells have no common point; horizontally and vertically adjacent
cells are separated by a gap of 10; and every rectangle lies in the window
inset by the padding, `x` in [20, 980] and `y` in [20, 580]. -/
theorem main_grid_geometry :
    num_columns = 32 ∧ num_rows = 19 ∧ main_cells.length = 608 ∧
    (∀ i : Nat, i < 608 → main_cells[i]? = some (main_cell (i : Int))) ∧
    (∀ i j : Nat, i < 608 → j < 608 → i ≠ j →
      rect_disjoint (main_cell (i : Int)).rect_dim (main_cell (j : Int)).rect_dim) ∧
    (∀ i : Nat, i + 1 < 608 → (i : Int) % 32 ≠ 31 →
      (main_cell ((i : Int) + 1)).rect_dim.x
          - ((main_cell (i : Int)).rect_dim.x + (main_cell (i : Int)).rect_dim.width) = 10 ∧
        (main_cell ((i : Int) + 1)).rect_dim.y = (main_cell (i : Int)).rect_dim.y) ∧
    (∀ i : Nat, i + 32 < 608 →
      (main_cell ((i : Int) + 32)).rect_dim.y
          - ((main_cell (i : Int)).rect_dim.y + (main_cell (i : Int)).rect_dim.height) = 10 ∧
        (main_cell ((i : Int) + 32)).rect_dim.x = (main_cell (i : Int)).rect_dim.x) ∧
    (∀ i : Nat, i < 608 →
      20 ≤ (main_cell (i : Int)).rect_dim.x ∧
        (main_cell (i : Int)).rect_dim.x + (main_cell (i : Int)).rect_dim.width ≤ 980 ∧
        20 ≤ (main_cell (i : Int)).rect_dim.y ∧
        (main_cell (i : Int)).rect_dim.y + (main_cell (i : Int)).rect_dim.height ≤ 580) := by
  refine ⟨num_columns_eq, num_rows_eq, main_cells_length, main_cells_get, ?_, ?_, ?_, ?_⟩
  · intro i j hi hj hij
    unfold rect_disjoint
    simp only [main_cell_x, main_cell_y, main_cell_width, main_cell_height]
    omega
  · intro i hi hcol
    simp only [main_cell_x, main_cell_y, main_cell_width]
    omega
  · intro i hi
    simp only [main_cell_x, main_cell_y, main_cell_height]
    omega
  · intro i hi
    simp only [main_cell_x, main_cell_y, main_cell_width, main_cell_height]
    omega

/-! ## C14: the editor press -/

theorem inside_in_rect {p : Vector2} {r : Rectangle} (h : inside_rect p r) : in_rect p r :=
  ⟨le_of_lt h.1, le_of_lt h.2.1, le_of_lt h.2.2.1, le_of_lt h.2.2.2⟩

theorem main_rect_unique {p : Vector2} {i j : Nat}
    (h1 : in_rect p (main_cell (i : Int)).rect_dim)
    (h2 : in_rect p (main_cell (j : Int)).rect_dim) : i = j := by
  obtain ⟨a1, a2, a3, a4⟩ := h1
  obtain ⟨b1, b2, b3, b4⟩ := h2
  have x1 : (main_cell (i : Int)).rect_dim.x
      ≤ (main_cell (j : Int)).rect_dim.x + (main_cell (j : Int)).rect_dim.width := by
    exact_mod_cast le_trans a1 b2
  have x2 : (main_cell (j : Int)).rect_dim.x
      ≤ (main_cell (i : Int)).rect_dim.x + (main_cell (i : Int)).rect_dim.width := by
    exact_mod_cast le_trans b1 a2
  have y1 : (main_cell (i : Int)).rect_dim.y
      ≤ (main_cell (j : Int)).rect_dim.y + (main_cell (j : Int)).rect_dim.height := by
    exact_mod_cast le_trans a3 b4
  have y2 : (main_cell (j : Int)).rect_dim.y
      ≤ (main_cell (i : Int)).rect_dim.y + (main_cell (i : Int)).rect_dim.height := by
    exact_mod_cast le_trans b3 a4
  simp only [main_cell_x, main_cell_y, main_cell_width, main_cell_height] at x1 x2 y1 y2
  omega

theorem rect_of_main {cs : List cell}
    (hrect : cs.map cell.rect_dim = main_cells.map cell.rect_dim) {i : Nat} {c : cell}
    (hc : cs[i]? = some c) : i < 608 ∧ c.rect_dim = (main_cell (i : Int)).rect_dim := by
  have hl : cs.length = 608 := by
    have := congrArg List.length hrect
    simpa [main_cells_length] using this
  have hi : i < 608 := by
    rcases List.getElem?_eq_some.mp hc with ⟨h, _⟩
    omega
  refine ⟨hi, ?_⟩
  have e := congrArg (fun l => l[i]?) hrect
  simp only [List.getElem?_map, hc, main_cells_get i hi, Option.map_some',
    Option.some.injEq] at e
  exact e

theorem frame_edit (H : Vector2 → Rectangle → Bool) (R C : Int) (inp : Input) (g : Game)
    (hlen : (g.cells.length : Int) = C * R) (hp : (frame_keys inp g).pause = false)
    (hs : (frame_keys inp g).start = false) (hr : (frame_keys inp g).reset = false) :
    ∃ g1, frame H R C inp g = some g1 ∧
      g1.cells = g.cells.map (edit_cell H inp.mouse_position inp.MOUSE_BUTTON_LEFT) := by
  have hl : ((frame_keys inp g).cells.length : Int) = C * R := hlen
  have e1 := frame_step_edit H R C inp (frame_keys inp g) hp hs hl
  have e2 := (frame_of_step e1).trans (frame_reset_off R C _ hr)
  exact ⟨_, e2, rfl⟩

/-- C14: in EDIT on the grid of `main`, with a hit test that reports no point
outside a rectangle and every point inside it, a left-button press at a point
inside the rectangle of cell `k` flips `state` and `new_state` of cell `k` and
leaves every other cell as it is; a press at a point in no cell rectangle
changes no cell; and a frame without a press changes no cell. -/
theorem editor_press (CheckCollisionPointRec : Vector2 → Rectangle → Bool)
    (g : Game) (cs : List cell) (p : Vector2) (fps : Int) (kl kr : Bool)
    (hsound : ∀ q r, CheckCollisionPointRec q r = true → in_rect q r)
    (hcomplete : ∀ q r, inside_rect q r → CheckCollisionPointRec q r = true)
    (hg : g.cells = cs)
    (hrect : cs.map cell.rect_dim = main_cells.map cell.rect_dim)
    (hp : g.pause = false) (hs : g.start = false) (hr : g.reset = false) :
    (∀ (k : Nat) (c : cell), cs[k]? = some c → inside_rect p c.rect_dim →
      ∃ g1, frame CheckCollisionPointRec num_rows num_columns
          ⟨false, false, false, kl, kr, true, p, fps⟩ g = some g1 ∧
        g1.cells = cs.set k (toggle_cell c)) ∧
    ((∀ c ∈ cs, ¬ in_rect p c.rect_dim) →
      ∃ g1, frame CheckCollisionPointRec num_rows num_columns
          ⟨false, false, false, kl, kr, true, p, fps⟩ g = some g1 ∧ g1.cells = cs) ∧
    (∃ g1, frame CheckCollisionPointRec num_rows num_columns
        ⟨false, false, false, kl, kr, false, p, fps⟩ g = some g1 ∧ g1.cells = cs) := by
  subst hg
  have hlen : (g.cells.length : Int) = num_columns * num_rows := by
    have := congrArg List.length hrect
    simp only [List.length_map, main_cells_length] at this
    rw [this, num_columns_eq, num_rows_eq]
    decide
  refine ⟨?_, ?_, ?_⟩
  · intro k c hc hin
    obtain ⟨g1, e1, e2⟩ := frame_edit CheckCollisionPointRec num_rows num_columns
      ⟨false, false, false, kl, kr, true, p, fps⟩ g hlen hp hs hr
    refine ⟨g1, e1, ?_⟩
    rw [e2]
    apply List.ext_getElem?
    intro j
    rw [List.getElem?_map, List.getElem?_set]
    have hk : k < g.cells.length := by
      rcases List.getElem?_eq_some.mp hc with ⟨h, _⟩
      exact h
    by_cases hkj : k = j
    · subst hkj
      simp only [hc, Option.map_some', if_true, hk, edit_cell, hcomplete p c.rect_dim hin,
        Bool.and_self]
    · simp only [hkj, if_false]
      cases hd : g.cells[j]? with
      | none => rfl
      | some d =>
        have hfalse : CheckCollisionPointRec p d.rect_dim = false := by
          cases hH : CheckCollisionPointRec p d.rect_dim
          · rfl
          · exfalso
            have r1 := rect_of_main hrect hd
            have r2 := rect_of_main hrect hc
            have i1 := hsound p d.rect_dim hH
            have i2 := inside_in_rect hin
            rw [r1.2] at i1
            rw [r2.2] at i2
            exact hkj (main_rect_unique i2 i1)
        simp only [Option.map_some', edit_cell, hfalse, Bool.false_and, Bool.false_eq_true,
          if_false]
  · intro hno
    obtain ⟨g1, e1, e2⟩ := frame_edit CheckCollisionPointRec num_rows num_columns
      ⟨false, false, false, kl, kr, true, p, fps⟩ g hlen hp hs hr
    refine ⟨g1, e1, ?_⟩
    rw [e2]
    conv => rhs; rw [← List.map_id g.cells]
    apply List.map_congr_left
    intro c hc
    have hfalse : CheckCollisionPointRec p c.rect_dim = false := by
      cases hH : CheckCollisionPointRec p c.rect_dim
      · rfl
      · exact absurd (hsound p c.rect_dim hH) (hno c hc)
    simp only [edit_cell, hfalse, Bool.false_and, Bool.false_eq_true, if_false, id]
  · obtain ⟨g1, e1, e2⟩ := frame_edit CheckCollisionPointRec num_rows num_columns
      ⟨false, false, false, kl, kr, false, p, fps⟩ g hlen hp hs hr
    refine ⟨g1, e1, ?_⟩
    rw [e2]
    conv => rhs; rw [← List.map_id g.cells]
    apply List.map_congr_left
    intro c _
    exact edit_cell_idle _ _ c

/-- C14, on the grid of `main` before the first edit, with the hit test that
reports the points of a rectangle and its border: a press at the point
(30, 30), inside the rectangle of cell 0, toggles cell 0 alone. -/
theorem editor_press_witness :
    ∃ g1, frame (fun q r => decide (in_rect q r)) num_rows num_columns
        ⟨false, false, false, false, false, true, ⟨30, 30⟩, 40⟩
        ⟨false, false, false, false, 0, 40, ⟨0, 0⟩, main_cells⟩ = some g1 ∧
      g1.cells = main_cells.set 0 (toggle_cell (main_cell ((0 : Nat) : Int))) :=
  (editor_press (fun q r => decide (in_rect q r))
    ⟨false, false, false, false, 0, 40, ⟨0, 0⟩, main_cells⟩ main_cells ⟨30, 30⟩ 40
    false false (fun _ _ h => of_decide_eq_true h)
    (fun _ _ h => decide_eq_true (inside_in_rect h)) (by simp only) rfl rfl rfl rfl).1 0
    (main_cell ((0 : Nat) : Int)) (main_cells_get 0 (by decide))
    (by norm_num [inside_rect, main_cell_x, main_cell_y, main_cell_width, main_cell_height])

end GameOfLife
